import Mathlib

/-!
Verification of the output layer of the aither compressible-flow solver.

The definitions below are a shallow embedding of `src/output.cpp`: machine
doubles are modelled as rationals, C++ `int` sizes and indices as naturals
(all quantities involved are nonnegative in every valid configuration), and
binary file output as lists of tokens.  Classes that `output.cpp` uses but
whose sources are not part of the repository snapshot (`procBlock`,
`decomposition`, `input`, the equation of state, `genArray`) are modelled
from the specification; each such definition is marked `Modelled from the
spec:` in its doc comment.
-/

set_option autoImplicit false

namespace Aither

/-- A split axis: the `"i"`, `"j"` or `"k"` strings of the C++ source. -/
inductive axis3 where
  | ax_i : axis3
  | ax_j : axis3
  | ax_k : axis3
deriving DecidableEq, Repr, Inhabited

/-- A triple of naturals, modelling the `vector3d<int>` extents used by
`SplitBlockNumber` (all extents are nonnegative in valid configurations). -/
structure v3 where
  x : Nat
  y : Nat
  z : Nat
deriving DecidableEq, Repr, Inhabited

/-- Component of a `v3` selected by an axis. -/
def v3.comp (v : v3) : axis3 → Nat
  | axis3.ax_i => v.x
  | axis3.ax_j => v.y
  | axis3.ax_k => v.z

/-- Replace the component of a `v3` selected by an axis. -/
def v3.withComp (v : v3) : axis3 → Nat → v3
  | axis3.ax_i, n => { v with x := n }
  | axis3.ax_j, n => { v with y := n }
  | axis3.ax_k, n => { v with z := n }

/-- Add `d` to the component of a `v3` selected by an axis (the
`splitBlk.first[...] += decomp.SplitHistIndex(ss)` update). -/
def v3.bump (v : v3) (a : axis3) (d : Nat) : v3 :=
  v.withComp a (v.comp a + d)

/-- A rational 3-vector (cell-center coordinates, gradients). -/
structure vec3 where
  x : ℚ
  y : ℚ
  z : ℚ
deriving DecidableEq, Repr, Inhabited

/-- Component `nn ∈ {0,1,2}` of a `vec3`, as in `dumVec[nn]`. -/
def vec3.comp (v : vec3) : Nat → ℚ
  | 0 => v.x
  | 1 => v.y
  | _ => v.z

/-- A rational 3×3 tensor (the velocity gradient). -/
structure tensor3 where
  xx : ℚ
  xy : ℚ
  xz : ℚ
  yx : ℚ
  yy : ℚ
  yz : ℚ
  zx : ℚ
  zy : ℚ
  zz : ℚ
deriving DecidableEq, Repr, Inhabited

/-- Modelled from the spec: the primitive state `{ρ, u, v, w, p}` plus the
turbulence variables `{k, ω}` (`primVars.hpp` is not part of src/). -/
structure primVars where
  rho : ℚ
  u : ℚ
  v : ℚ
  w : ℚ
  p : ℚ
  tke : ℚ
  omega : ℚ
deriving DecidableEq, Repr, Inhabited

/-- Modelled from the spec: one structured block (`procBlock.hpp/.cpp` are not
part of src/).  It owns interior cell counts `numI × numJ × numK`, a ghost halo
of width `numGhosts`, and the per-cell accessors that `output.cpp` calls
(`State`, `Dt`, `Temperature`, `Center`, `WallDist`, `EddyViscosity`,
`Viscosity`, `VelGrad`, `TempGrad`, `TkeGrad`, `OmegaGrad`, `Residual`,
`Rank`, `GlobalPos`, `IsTurbulent`).  Accessors take raw ghost-inclusive
indices, exactly as the C++ call sites do. -/
@[ext]
structure procBlock where
  numI : Nat
  numJ : Nat
  numK : Nat
  numGhosts : Nat
  state : Nat → Nat → Nat → primVars
  dt : Nat → Nat → Nat → ℚ
  temperature : Nat → Nat → Nat → ℚ
  center : Nat → Nat → Nat → vec3
  wallDist : Nat → Nat → Nat → ℚ
  eddyViscosity : Nat → Nat → Nat → ℚ
  viscosity : Nat → Nat → Nat → ℚ
  velGrad : Nat → Nat → Nat → tensor3
  tempGrad : Nat → Nat → Nat → vec3
  tkeGrad : Nat → Nat → Nat → vec3
  omegaGrad : Nat → Nat → Nat → vec3
  residual : Nat → Nat → Nat → Nat → ℚ
  rank : Int
  globalPos : Int
  isTurbulent : Bool

instance : Inhabited procBlock :=
  ⟨⟨0, 0, 0, 0, fun _ _ _ => default, fun _ _ _ => 0, fun _ _ _ => 0,
    fun _ _ _ => default, fun _ _ _ => 0, fun _ _ _ => 0, fun _ _ _ => 0,
    fun _ _ _ => default, fun _ _ _ => default, fun _ _ _ => default,
    fun _ _ _ => default, fun _ _ _ _ => 0, 0, 0, false⟩⟩

/-- A block with the given interior cell counts and arbitrary (zero) field
data, used for concrete instances. -/
def trivialBlock (ni nj nk : Nat) : procBlock :=
  { (default : procBlock) with numI := ni, numJ := nj, numK := nk, numGhosts := 2 }

/-- The interior extent of a block along an axis. -/
def extentA (b : procBlock) : axis3 → Nat
  | axis3.ax_i => b.numI
  | axis3.ax_j => b.numJ
  | axis3.ax_k => b.numK

/-- Modelled from the spec: one record of the split history (§3: "Each split:
(parent, lowerChild, upperChild, axis ∈ {i,j,k}, index)").  `lower` is
`SplitHistBlkLower`, `upper` is `SplitHistBlkUpper` (the appended child),
`dir` is `SplitHistDir`, `ind` is `SplitHistIndex` (the cut position in the
local index space of the block being split), and `parent` is
`ParentBlock(upper)`, the original pre-split block this split's children
descend from. -/
structure splitRec where
  lower : Nat
  upper : Nat
  parent : Nat
  dir : axis3
  ind : Nat
deriving DecidableEq, Repr, Inhabited

/-- Modelled from the spec: the decomposition is "a list of Split records, in
historical order" (§3).  `NumSplits` is the list length. -/
structure decomposition where
  splits : List splitRec
deriving DecidableEq, Repr, Inhabited

/-- Modelled from the spec: the lower child of splitting a block at local
index `d` along `dir` (§4.7).  It keeps the low part of the interior, so its
accessors coincide with the parent's and only the cell count along the axis
shrinks to `d`. -/
def procBlock.splitLower (b : procBlock) (dir : axis3) (d : Nat) : procBlock :=
  match dir with
  | axis3.ax_i => { b with numI := d }
  | axis3.ax_j => { b with numJ := d }
  | axis3.ax_k => { b with numK := d }

/-- Shift every per-cell accessor of a block by `d` along the first index. -/
def procBlock.shiftI (b : procBlock) (d : Nat) : procBlock :=
  { b with
    state := fun i j k => b.state (i + d) j k
    dt := fun i j k => b.dt (i + d) j k
    temperature := fun i j k => b.temperature (i + d) j k
    center := fun i j k => b.center (i + d) j k
    wallDist := fun i j k => b.wallDist (i + d) j k
    eddyViscosity := fun i j k => b.eddyViscosity (i + d) j k
    viscosity := fun i j k => b.viscosity (i + d) j k
    velGrad := fun i j k => b.velGrad (i + d) j k
    tempGrad := fun i j k => b.tempGrad (i + d) j k
    tkeGrad := fun i j k => b.tkeGrad (i + d) j k
    omegaGrad := fun i j k => b.omegaGrad (i + d) j k
    residual := fun i j k n => b.residual (i + d) j k n }

/-- Shift every per-cell accessor of a block by `d` along the second index. -/
def procBlock.shiftJ (b : procBlock) (d : Nat) : procBlock :=
  { b with
    state := fun i j k => b.state i (j + d) k
    dt := fun i j k => b.dt i (j + d) k
    temperature := fun i j k => b.temperature i (j + d) k
    center := fun i j k => b.center i (j + d) k
    wallDist := fun i j k => b.wallDist i (j + d) k
    eddyViscosity := fun i j k => b.eddyViscosity i (j + d) k
    viscosity := fun i j k => b.viscosity i (j + d) k
    velGrad := fun i j k => b.velGrad i (j + d) k
    tempGrad := fun i j k => b.tempGrad i (j + d) k
    tkeGrad := fun i j k => b.tkeGrad i (j + d) k
    omegaGrad := fun i j k => b.omegaGrad i (j + d) k
    residual := fun i j k n => b.residual i (j + d) k n }

/-- Shift every per-cell accessor of a block by `d` along the third index. -/
def procBlock.shiftK (b : procBlock) (d : Nat) : procBlock :=
  { b with
    state := fun i j k => b.state i j (k + d)
    dt := fun i j k => b.dt i j (k + d)
    temperature := fun i j k => b.temperature i j (k + d)
    center := fun i j k => b.center i j (k + d)
    wallDist := fun i j k => b.wallDist i j (k + d)
    eddyViscosity := fun i j k => b.eddyViscosity i j (k + d)
    viscosity := fun i j k => b.viscosity i j (k + d)
    velGrad := fun i j k => b.velGrad i j (k + d)
    tempGrad := fun i j k => b.tempGrad i j (k + d)
    tkeGrad := fun i j k => b.tkeGrad i j (k + d)
    omegaGrad := fun i j k => b.omegaGrad i j (k + d)
    residual := fun i j k n => b.residual i j (k + d) n }

/-- Modelled from the spec: the upper child of splitting a block at local
index `d` along `dir` (§4.7).  Its cell `c` along the axis is the parent's
cell `c + d`, so every accessor is shifted by `d` along that axis. -/
def procBlock.splitUpper (b : procBlock) (dir : axis3) (d : Nat) : procBlock :=
  match dir with
  | axis3.ax_i => { b.shiftI d with numI := b.numI - d }
  | axis3.ax_j => { b.shiftJ d with numJ := b.numJ - d }
  | axis3.ax_k => { b.shiftK d with numK := b.numK - d }

/-- Modelled from the spec: `procBlock::Join` (procBlock.cpp is not part of
src/).  §4.7: Recombine "fuses lower with upper along the recorded axis,
producing the original block geometry".  The fused block has the summed cell
count along the axis; below the seam (the lower block's interior, ghost
offset included) accessors read the lower block, above it the upper block
shifted back by the lower block's cell count.  Block-level metadata (`rank`,
`globalPos`, `isTurbulent`, ghost width) is taken from the lower block, and
the auxiliary boundary-surface argument of the C++ `Join` is dropped just as
`Recombine` drops `dumSurf`. -/
def procBlock.join (a b : procBlock) (dir : axis3) : procBlock :=
  match dir with
  | axis3.ax_i =>
      { a with
        numI := a.numI + b.numI
        state := fun i j k =>
          if i < a.numGhosts + a.numI then a.state i j k else b.state (i - a.numI) j k
        dt := fun i j k =>
          if i < a.numGhosts + a.numI then a.dt i j k else b.dt (i - a.numI) j k
        temperature := fun i j k =>
          if i < a.numGhosts + a.numI then a.temperature i j k else b.temperature (i - a.numI) j k
        center := fun i j k =>
          if i < a.numGhosts + a.numI then a.center i j k else b.center (i - a.numI) j k
        wallDist := fun i j k =>
          if i < a.numGhosts + a.numI then a.wallDist i j k else b.wallDist (i - a.numI) j k
        eddyViscosity := fun i j k =>
          if i < a.numGhosts + a.numI then a.eddyViscosity i j k else b.eddyViscosity (i - a.numI) j k
        viscosity := fun i j k =>
          if i < a.numGhosts + a.numI then a.viscosity i j k else b.viscosity (i - a.numI) j k
        velGrad := fun i j k =>
          if i < a.numGhosts + a.numI then a.velGrad i j k else b.velGrad (i - a.numI) j k
        tempGrad := fun i j k =>
          if i < a.numGhosts + a.numI then a.tempGrad i j k else b.tempGrad (i - a.numI) j k
        tkeGrad := fun i j k =>
          if i < a.numGhosts + a.numI then a.tkeGrad i j k else b.tkeGrad (i - a.numI) j k
        omegaGrad := fun i j k =>
          if i < a.numGhosts + a.numI then a.omegaGrad i j k else b.omegaGrad (i - a.numI) j k
        residual := fun i j k n =>
          if i < a.numGhosts + a.numI then a.residual i j k n else b.residual (i - a.numI) j k n }
  | axis3.ax_j =>
      { a with
        numJ := a.numJ + b.numJ
        state := fun i j k =>
          if j < a.numGhosts + a.numJ then a.state i j k else b.state i (j - a.numJ) k
        dt := fun i j k =>
          if j < a.numGhosts + a.numJ then a.dt i j k else b.dt i (j - a.numJ) k
        temperature := fun i j k =>
          if j < a.numGhosts + a.numJ then a.temperature i j k else b.temperature i (j - a.numJ) k
        center := fun i j k =>
          if j < a.numGhosts + a.numJ then a.center i j k else b.center i (j - a.numJ) k
        wallDist := fun i j k =>
          if j < a.numGhosts + a.numJ then a.wallDist i j k else b.wallDist i (j - a.numJ) k
        eddyViscosity := fun i j k =>
          if j < a.numGhosts + a.numJ then a.eddyViscosity i j k else b.eddyViscosity i (j - a.numJ) k
        viscosity := fun i j k =>
          if j < a.numGhosts + a.numJ then a.viscosity i j k else b.viscosity i (j - a.numJ) k
        velGrad := fun i j k =>
          if j < a.numGhosts + a.numJ then a.velGrad i j k else b.velGrad i (j - a.numJ) k
        tempGrad := fun i j k =>
          if j < a.numGhosts + a.numJ then a.tempGrad i j k else b.tempGrad i (j - a.numJ) k
        tkeGrad := fun i j k =>
          if j < a.numGhosts + a.numJ then a.tkeGrad i j k else b.tkeGrad i (j - a.numJ) k
        omegaGrad := fun i j k =>
          if j < a.numGhosts + a.numJ then a.omegaGrad i j k else b.omegaGrad i (j - a.numJ) k
        residual := fun i j k n =>
          if j < a.numGhosts + a.numJ then a.residual i j k n else b.residual i (j - a.numJ) k n }
  | axis3.ax_k =>
      { a with
        numK := a.numK + b.numK
        state := fun i j k =>
          if k < a.numGhosts + a.numK then a.state i j k else b.state i j (k - a.numK)
        dt := fun i j k =>
          if k < a.numGhosts + a.numK then a.dt i j k else b.dt i j (k - a.numK)
        temperature := fun i j k =>
          if k < a.numGhosts + a.numK then a.temperature i j k else b.temperature i j (k - a.numK)
        center := fun i j k =>
          if k < a.numGhosts + a.numK then a.center i j k else b.center i j (k - a.numK)
        wallDist := fun i j k =>
          if k < a.numGhosts + a.numK then a.wallDist i j k else b.wallDist i j (k - a.numK)
        eddyViscosity := fun i j k =>
          if k < a.numGhosts + a.numK then a.eddyViscosity i j k else b.eddyViscosity i j (k - a.numK)
        viscosity := fun i j k =>
          if k < a.numGhosts + a.numK then a.viscosity i j k else b.viscosity i j (k - a.numK)
        velGrad := fun i j k =>
          if k < a.numGhosts + a.numK then a.velGrad i j k else b.velGrad i j (k - a.numK)
        tempGrad := fun i j k =>
          if k < a.numGhosts + a.numK then a.tempGrad i j k else b.tempGrad i j (k - a.numK)
        tkeGrad := fun i j k =>
          if k < a.numGhosts + a.numK then a.tkeGrad i j k else b.tkeGrad i j (k - a.numK)
        omegaGrad := fun i j k =>
          if k < a.numGhosts + a.numK then a.omegaGrad i j k else b.omegaGrad i j (k - a.numK)
        residual := fun i j k n =>
          if k < a.numGhosts + a.numK then a.residual i j k n else b.residual i j (k - a.numK) n }

/-- One iteration of the `Recombine` loop (output.cpp:795-801): the lower
block absorbs the upper block via `Join` and the vector is shrunk by one. -/
def recombineStep (rv : List procBlock) (s : splitRec) : List procBlock :=
  ((rv.set s.lower
      ((rv.getD s.lower default).join (rv.getD s.upper default) s.dir))).dropLast

/-- Shallow embedding of `Recombine` (output.cpp:788-804): replay the recorded
split list from the last entry to the first, at each step fusing the lower
child with the upper child along the recorded axis and dropping the last
vector slot. -/
def Recombine (vars : List procBlock) (decomp : decomposition) : List procBlock :=
  decomp.splits.reverse.foldl recombineStep vars

/-- Modelled from the spec: apply one split of the history to the current
block list — the lower child replaces the block in place, the upper child is
appended (§4.7: "lower child id (reuses parent id), upper child id
(appended)"). -/
def applySplitStep (blks : List procBlock) (s : splitRec) : List procBlock :=
  let b := blks.getD s.lower default
  (blks.set s.lower (b.splitLower s.dir s.ind)) ++ [b.splitUpper s.dir s.ind]

/-- Modelled from the spec: apply a split history, in historical order, to an
initial block list. -/
def applyHistory (blks : List procBlock) (splits : List splitRec) : List procBlock :=
  splits.foldl applySplitStep blks

/-- Validity of a split history against a block list: the split's lower child
id names an existing block, the upper child id is the appended slot, the cut
sits strictly inside the block being split, and the rest of the history is
valid for the resulting block list. -/
def validHist : List procBlock → List splitRec → Bool
  | _, [] => true
  | blks, s :: rest =>
      decide (s.lower < blks.length) && decide (s.upper = blks.length) &&
      decide (0 < s.ind) && decide (s.ind < extentA (blks.getD s.lower default) s.dir) &&
      validHist (applySplitStep blks s) rest

/-- An extent box: lower and upper `vector3d<int>` extents, as in the
`blkDims` entries of `SplitBlockNumber`. -/
abbrev extBox := v3 × v3

/-- The loop of `SplitBlockNumber` (output.cpp:833-871).  One entry is pushed
onto `blkDims` per split: a dummy if the split belongs to a different parent
block, otherwise the lower child's dims with the lower extent bumped by the
split index along the split axis.  If the queried cell falls outside the
upper child's extents the lower child's id is returned at once; otherwise the
running answer becomes the upper child's id. -/
def sbnLoop (blk ii jj kk : Nat) : List splitRec → List extBox → Nat → Nat
  | [], _, ind => ind
  | s :: rest, blkDims, ind =>
      if blk ≠ s.parent then
        sbnLoop blk ii jj kk rest (blkDims ++ [(⟨0, 0, 0⟩, ⟨0, 0, 0⟩)]) ind
      else
        let splitBlk := blkDims.getD s.lower default
        let blkDims' := blkDims ++ [(splitBlk.1.bump s.dir s.ind, splitBlk.2)]
        let ub := blkDims'.getD s.upper default
        if ii ≤ ub.2.x ∧ jj ≤ ub.2.y ∧ kk ≤ ub.2.z ∧
            ub.1.x ≤ ii ∧ ub.1.y ≤ jj ∧ ub.1.z ≤ kk then
          sbnLoop blk ii jj kk rest blkDims' s.upper
        else
          s.lower

/-- Shallow embedding of `SplitBlockNumber` (output.cpp:808-874).  `vars` is
the vector of recombined blocks; `blkDims` starts with one entry per
recombined block, lower extent `(0,0,0)` and upper extent the interior cell
counts.  The `decomp.NumSplits() == 0` early return of the C++ coincides with
running the loop on the empty split list. -/
def SplitBlockNumber (vars : List procBlock) (decomp : decomposition)
    (blk ii jj kk : Nat) : Nat :=
  let blkDims : List extBox :=
    vars.map fun b => ((⟨0, 0, 0⟩ : v3), (⟨b.numI, b.numJ, b.numK⟩ : v3))
  sbnLoop blk ii jj kk decomp.splits blkDims blk

/-- Modelled from the spec: the effect of one split on the half-open extent
boxes of the split blocks, each box expressed in its original parent block's
recombined (0-based interior) index space.  The lower child keeps the low
part up to the cut, the upper child gets the part from the cut up. -/
def applySplitBox (bd : List extBox) (s : splitRec) : List extBox :=
  let box := bd.getD s.lower default
  let cut := box.1.comp s.dir + s.ind
  (bd.set s.lower (box.1, box.2.withComp s.dir cut)) ++ [(box.1.withComp s.dir cut, box.2)]

/-- The initial extent boxes: each recombined block covers
`[0, numI) × [0, numJ) × [0, numK)` of its own index space. -/
def initBoxes (vars : List procBlock) : List extBox :=
  vars.map fun b => ((⟨0, 0, 0⟩ : v3), (⟨b.numI, b.numJ, b.numK⟩ : v3))

/-- Modelled from the spec: the extent boxes of every split block after the
whole split history. -/
def splitBoxes (vars : List procBlock) (splits : List splitRec) : List extBox :=
  splits.foldl applySplitBox (initBoxes vars)

/-- Membership of a cell in a half-open extent box: the block whose box this
is owns the cell. -/
def inBox (box : extBox) (ii jj kk : Nat) : Prop :=
  box.1.x ≤ ii ∧ ii < box.2.x ∧ box.1.y ≤ jj ∧ jj < box.2.y ∧
    box.1.z ≤ kk ∧ kk < box.2.z

instance (box : extBox) (ii jj kk : Nat) : Decidable (inBox box ii jj kk) := by
  unfold inBox; infer_instance

/-- The original parent block of every split block: block `b < R` is its own
parent, and each split appends its recorded parent for the upper child it
creates. -/
def parentMap (R : Nat) (splits : List splitRec) : List Nat :=
  splits.foldl (fun pm s => pm ++ [s.parent]) (List.range R)

/-- General validity of a split history for a list of recombined blocks: at
each step the lower child id names an existing split block, the upper child
id is the next free id, the recorded parent is the lower child's original
parent, and the cut sits strictly inside the lower child's current box along
the split axis.  `bd` and `pm` carry the current boxes and parent ids, `n`
the number of splits already performed. -/
def validSplitsFrom (R : Nat) : List splitRec → List extBox → List Nat → Nat → Bool
  | [], _, _, _ => true
  | s :: rest, bd, pm, n =>
      decide (s.lower < R + n) && decide (s.upper = R + n) &&
      decide (s.parent = pm.getD s.lower 0) &&
      decide (0 < s.ind) &&
      decide ((bd.getD s.lower default).1.comp s.dir + s.ind
                < (bd.getD s.lower default).2.comp s.dir) &&
      validSplitsFrom R rest (applySplitBox bd s) (pm ++ [s.parent]) (n + 1)

/-- General validity of a split history against a recombined block list. -/
def validDecomp (vars : List procBlock) (splits : List splitRec) : Bool :=
  validSplitsFrom vars.length splits (initBoxes vars) (List.range vars.length) 0

/-- Chain validity: in each original block's lineage, every split cuts the
block that was the upper child of that lineage's previous split (or the
original block itself for the lineage's first split).  `tops` maps each
original block to the id of its lineage's current topmost block, `los` to
that block's lower extent, `dims` to the original interior cell counts. -/
def chainSplitsFrom (R : Nat) :
    List splitRec → List Nat → List v3 → List v3 → Nat → Bool
  | [], _, _, _, _ => true
  | s :: rest, tops, los, dims, n =>
      decide (s.parent < R) && decide (s.upper = R + n) &&
      decide (s.lower = tops.getD s.parent 0) &&
      decide (0 < s.ind) &&
      decide ((los.getD s.parent default).comp s.dir + s.ind
                < (dims.getD s.parent default).comp s.dir) &&
      chainSplitsFrom R rest (tops.set s.parent (R + n))
        (los.set s.parent ((los.getD s.parent default).bump s.dir s.ind)) dims (n + 1)

/-- Chain validity of a split history against a recombined block list. -/
def chainDecomp (vars : List procBlock) (splits : List splitRec) : Bool :=
  chainSplitsFrom vars.length splits (List.range vars.length)
    (List.replicate vars.length ⟨0, 0, 0⟩)
    (vars.map fun b => ⟨b.numI, b.numJ, b.numK⟩) 0

/-- Substring test on character lists, modelling `std::string::find(pat) !=
string::npos`. -/
def hasSubstrL (pat : List Char) : List Char → Bool
  | [] => pat.isEmpty
  | c :: rest => pat.isPrefixOf (c :: rest) || hasSubstrL pat rest

/-- Substring test on strings: `hay.find(pat) != npos` in the C++. -/
def hasSubstr (hay pat : String) : Bool :=
  hasSubstrL pat.toList hay.toList

/-- Modelled from the spec: the external thermodynamics/vector collaborators
that `WriteFun` calls.  `sos p rho` is `eqnState.SoS(pressure, density)` (the
equation of state is an out-of-scope collaborator, §1), `mag` is
`vector3d::Mag`, `muRef` is `suth.MuRef()`. -/
structure flowCtx where
  sos : ℚ → ℚ → ℚ
  mag : vec3 → ℚ
  muRef : ℚ

/-- Modelled from the spec: the configuration record (`input`; input.cpp is
not part of src/).  `outputVariables` is the ordered variable list
(`inp.OutputVariables()`), whose length is `inp.NumVarsOutput()`; the
reference quantities are `RRef`, `PRef`, `TRef`, `LRef`; `outputFrequency`
is `inp.OutputFrequency()`. -/
structure inputRec where
  outputVariables : List String
  rref : ℚ
  pref : ℚ
  tref : ℚ
  lref : ℚ
  outputFrequency : Nat

/-- The output-variable names recognized by the `WriteFun` dispatch chain
(output.cpp:173-548); any other name reaches the fatal `else` branch. -/
def recognizedNames : List String :=
  ["density", "vel_x", "vel_y", "vel_z", "pressure", "mach", "sos", "dt",
   "temperature", "rank", "globalPosition", "viscosityRatio", "tke", "sdr",
   "wallDistance",
   "velGrad_ux", "velGrad_vx", "velGrad_wx", "velGrad_uy", "velGrad_vy",
   "velGrad_wy", "velGrad_uz", "velGrad_vz", "velGrad_wz",
   "tempGrad_x", "tempGrad_y", "tempGrad_z",
   "tkeGrad_x", "tkeGrad_y", "tkeGrad_z",
   "sdrGrad_x", "sdrGrad_y", "sdrGrad_z",
   "resid_mass", "resid_mom_x", "resid_mom_y", "resid_mom_z",
   "resid_energy", "resid_tke", "resid_sdr"]

/-- Whether a variable name hits one of the `WriteFun` dispatch branches. -/
def recognizedVar (var : String) : Bool :=
  recognizedNames.contains var

/-- The nondimensional value stored into `dumArr` for one interior cell
`(ii,jj,kk)` of recombined block `ll` and one output variable
(output.cpp:173-548).  State-based variables read ghost-offset indices
(`ig = ip + numGhosts`, ...), while `dt`, `rank`, `globalPosition`, the
gradient components and the residuals use the interior index directly, as in
the source.  `rank` and `globalPosition` index the *split* block vector at
`SplitBlockNumber`. -/
def fillValue (ctx : flowCtx) (vars recombVars : List procBlock)
    (decomp : decomposition) (ll : Nat) (var : String) (ii jj kk : Nat) : ℚ :=
  let b := recombVars.getD ll default
  let ig := ii + b.numGhosts
  let jg := jj + b.numGhosts
  let kg := kk + b.numGhosts
  if var = "density" then (b.state ig jg kg).rho
  else if var = "vel_x" then (b.state ig jg kg).u
  else if var = "vel_y" then (b.state ig jg kg).v
  else if var = "vel_z" then (b.state ig jg kg).w
  else if var = "pressure" then (b.state ig jg kg).p
  else if var = "mach" then
    ctx.mag ⟨(b.state ig jg kg).u, (b.state ig jg kg).v, (b.state ig jg kg).w⟩ /
      ctx.sos (b.state ig jg kg).p (b.state ig jg kg).rho
  else if var = "sos" then ctx.sos (b.state ig jg kg).p (b.state ig jg kg).rho
  else if var = "dt" then b.dt ii jj kk
  else if var = "temperature" then b.temperature ig jg kg
  else if var = "rank" then
    ((vars.getD (SplitBlockNumber recombVars decomp ll ii jj kk) default).rank : ℚ)
  else if var = "globalPosition" then
    ((vars.getD (SplitBlockNumber recombVars decomp ll ii jj kk) default).globalPos : ℚ)
  else if var = "viscosityRatio" then
    if b.isTurbulent then b.eddyViscosity ig jg kg / b.viscosity ig jg kg else 0
  else if var = "tke" then (b.state ig jg kg).tke
  else if var = "sdr" then (b.state ig jg kg).omega
  else if var = "wallDistance" then b.wallDist ig jg kg
  else if var = "velGrad_ux" then (b.velGrad ii jj kk).xx
  else if var = "velGrad_vx" then (b.velGrad ii jj kk).xy
  else if var = "velGrad_wx" then (b.velGrad ii jj kk).xz
  else if var = "velGrad_uy" then (b.velGrad ii jj kk).yx
  else if var = "velGrad_vy" then (b.velGrad ii jj kk).yy
  else if var = "velGrad_wy" then (b.velGrad ii jj kk).yz
  else if var = "velGrad_uz" then (b.velGrad ii jj kk).zx
  else if var = "velGrad_vz" then (b.velGrad ii jj kk).zy
  else if var = "velGrad_wz" then (b.velGrad ii jj kk).zz
  else if var = "tempGrad_x" then (b.tempGrad ii jj kk).x
  else if var = "tempGrad_y" then (b.tempGrad ii jj kk).y
  else if var = "tempGrad_z" then (b.tempGrad ii jj kk).z
  else if var = "tkeGrad_x" then (b.tkeGrad ii jj kk).x
  else if var = "tkeGrad_y" then (b.tkeGrad ii jj kk).y
  else if var = "tkeGrad_z" then (b.tkeGrad ii jj kk).z
  else if var = "sdrGrad_x" then (b.omegaGrad ii jj kk).x
  else if var = "sdrGrad_y" then (b.omegaGrad ii jj kk).y
  else if var = "sdrGrad_z" then (b.omegaGrad ii jj kk).z
  else if var = "resid_mass" then b.residual ii jj kk 0
  else if var = "resid_mom_x" then b.residual ii jj kk 1
  else if var = "resid_mom_y" then b.residual ii jj kk 2
  else if var = "resid_mom_z" then b.residual ii jj kk 3
  else if var = "resid_energy" then b.residual ii jj kk 4
  else if var = "resid_tke" then b.residual ii jj kk 5
  else if var = "resid_sdr" then b.residual ii jj kk 6
  else 0

/-- The dimensionalization pass of `WriteFun` (output.cpp:561-606): each
recognized variable's stored value is scaled by its factor before being
written; names matching none of the tests (like `mach`, `rank`,
`globalPosition`, `viscosityRatio`) are written unscaled.  The `*Grad_` and
`resid_mom_` tests are substring searches (`var.find(...) != npos`), as in
the source. -/
def dimensionalize (ctx : flowCtx) (inp : inputRec) (var : String) (x : ℚ) : ℚ :=
  let refSoS := ctx.sos inp.pref inp.rref
  if var = "density" then x * inp.rref
  else if var = "vel_x" then x * refSoS
  else if var = "vel_y" then x * refSoS
  else if var = "vel_z" then x * refSoS
  else if var = "pressure" then x * (inp.rref * refSoS * refSoS)
  else if var = "sos" then x * refSoS
  else if var = "dt" then x / (refSoS * inp.lref)
  else if var = "temperature" then x * inp.tref
  else if var = "tke" then x * (refSoS * refSoS)
  else if var = "sdr" then x * (refSoS * refSoS * inp.rref / ctx.muRef)
  else if var = "wallDistance" then x * inp.lref
  else if hasSubstr var "velGrad_" then x * (refSoS / inp.lref)
  else if hasSubstr var "tempGrad_" then x * (inp.tref / inp.lref)
  else if hasSubstr var "tkeGrad_" then x * (refSoS * refSoS / inp.lref)
  else if hasSubstr var "sdrGrad_" then
    x * (refSoS * refSoS * inp.rref / (ctx.muRef * inp.lref))
  else if var = "resid_mass" then x * (inp.rref * refSoS * inp.lref * inp.lref)
  else if hasSubstr var "resid_mom_" then
    x * (inp.rref * refSoS * refSoS * inp.lref * inp.lref)
  else if var = "resid_energy" then
    x * (inp.rref * refSoS ^ 3 * inp.lref * inp.lref)
  else if var = "resid_tke" then
    x * (inp.rref * refSoS ^ 3 * inp.lref * inp.lref)
  else if var = "resid_sdr" then
    x * (inp.rref * inp.rref * refSoS ^ 4 * inp.lref * inp.lref / ctx.muRef)
  else x

/-- One primitive write to a binary output file: a 4-byte int or an 8-byte
double. -/
inductive token where
  | i32 : Int → token
  | f64 : ℚ → token
deriving DecidableEq, Repr

/-- Failure modes of the output writers: the file did not open (`IOError`,
after which the writer exits without emitting a byte) or an output variable
hit the fatal unknown-name branch of `WriteFun`, which reports the name. -/
inductive outErr where
  | ioError : outErr
  | unknownVariable : String → outErr
deriving DecidableEq, Repr

/-- The interior cells of a block in write order: `ii` varies fastest, `kk`
slowest, exactly as the triple `for` loops of output.cpp do. -/
def cellList (ni nj nk : Nat) : List (Nat × Nat × Nat) :=
  (List.range nk).flatMap fun kk =>
    (List.range nj).flatMap fun jj =>
      (List.range ni).map fun ii => (ii, jj, kk)

/-- The tokens `WriteFun` emits for one (block, variable) pair: the fill pass
stores the nondimensional values, the write pass scales and writes them in
cell order; an unrecognized name hits the fatal branch before anything of
this pair is written. -/
def blockVarTokens (ctx : flowCtx) (inp : inputRec) (vars recombVars : List procBlock)
    (decomp : decomposition) (ll : Nat) (var : String) : Except outErr (List token) :=
  let b := recombVars.getD ll default
  if recognizedVar var then
    Except.ok ((cellList b.numI b.numJ b.numK).map fun c =>
      token.f64 (dimensionalize ctx inp var
        (fillValue ctx vars recombVars decomp ll var c.1 c.2.1 c.2.2)))
  else
    Except.error (outErr.unknownVariable var)

/-- Concatenate a sequence of tokenized writes, stopping at the first fatal
error (the C++ `exit` aborts the program at that point). -/
def collectTokens : List (Except outErr (List token)) → Except outErr (List token)
  | [] => Except.ok []
  | Except.error err :: _ => Except.error err
  | Except.ok ts :: rest =>
      match collectTokens rest with
      | Except.error err => Except.error err
      | Except.ok more => Except.ok (ts ++ more)

/-- Shallow embedding of `WriteFun` (output.cpp:122-618): recombine the split
blocks, check the file opened, write the block count, the per-block
`(Ni, Nj, Nk, numVars)` header, then per block and per output variable the
scaled cell values. -/
def WriteFun (ctx : flowCtx) (inp : inputRec) (vars : List procBlock)
    (decomp : decomposition) (openFailed : Bool) : Except outErr (List token) :=
  let recombVars := Recombine vars decomp
  if openFailed then Except.error outErr.ioError
  else
    let numVars : Nat := inp.outputVariables.length
    let header : List token :=
      token.i32 (recombVars.length : Int) ::
        recombVars.flatMap fun b =>
          [token.i32 (b.numI : Int), token.i32 (b.numJ : Int),
           token.i32 (b.numK : Int), token.i32 (numVars : Int)]
    match collectTokens ((List.range recombVars.length).flatMap fun ll =>
        inp.outputVariables.map fun var =>
          blockVarTokens ctx inp vars recombVars decomp ll var) with
    | Except.error err => Except.error err
    | Except.ok dataTokens => Except.ok (header ++ dataTokens)

/-- The function-file layout exactly as §6 of the spec states it:
`numBlocks:int32`; per block `(Ni, Nj, Nk, numVars):int32×4`; then per block
and per variable, `Ni·Nj·Nk` float64 values with i varying fastest and k
slowest — the value at linear position `n` of a (block, variable) section is
the value of cell `(n % Ni, n / Ni % Nj, n / (Ni·Nj))`.  The per-cell value
function `vf` is a parameter. -/
def funFileLayout (recombVars : List procBlock) (outVars : List String)
    (vf : Nat → String → Nat → Nat → Nat → ℚ) : List token :=
  token.i32 (recombVars.length : Int) ::
    (recombVars.flatMap fun b =>
      [token.i32 (b.numI : Int), token.i32 (b.numJ : Int),
       token.i32 (b.numK : Int), token.i32 (outVars.length : Int)]) ++
    ((List.range recombVars.length).flatMap fun ll =>
      outVars.flatMap fun var =>
        let b := recombVars.getD ll default
        (List.range (b.numI * b.numJ * b.numK)).map fun n =>
          token.f64 (vf ll var (n % b.numI) (n / b.numI % b.numJ)
            (n / (b.numI * b.numJ))))

/-- Scale a rational 3-vector, as in `Center(ii,jj,kk) * LRef`. -/
def vec3.scale (v : vec3) (q : ℚ) : vec3 :=
  ⟨v.x * q, v.y * q, v.z * q⟩

/-- Shallow embedding of `WriteCellCenter` (output.cpp:56-118): recombine,
check the file opened, write the block count, the per-block `(Ni, Nj, Nk)`
dims, then per block all x, all y, all z dimensionalized cell-center
coordinates over the ghost-offset interior cells. -/
def WriteCellCenter (vars : List procBlock) (decomp : decomposition) (lRef : ℚ)
    (openFailed : Bool) : Except outErr (List token) :=
  let recombVars := Recombine vars decomp
  if openFailed then Except.error outErr.ioError
  else
    Except.ok
      (token.i32 (recombVars.length : Int) ::
        (recombVars.flatMap fun b =>
          [token.i32 (b.numI : Int), token.i32 (b.numJ : Int), token.i32 (b.numK : Int)]) ++
        recombVars.flatMap fun b =>
          (List.range 3).flatMap fun nn =>
            (cellList b.numI b.numJ b.numK).map fun c =>
              token.f64 (((b.center (c.1 + b.numGhosts) (c.2.1 + b.numGhosts)
                (c.2.2 + b.numGhosts)).scale lRef).comp nn))

/-- One line of the ASCII Ensight results index file. -/
inductive resLine where
  | header3 : Nat → Nat → Nat → resLine
  | nTimes : Nat → resLine
  | times : List Nat → resLine
  | incr : Nat → Nat → resLine
  | scalarVar : Nat → String → resLine
  | vectorVar : Nat → Nat → Nat → resLine
deriving DecidableEq, Repr

/-- Shallow embedding of `WriteRes` (output.cpp:621-697): check the file
opened, then write the scalar/vector counts, the solution-time list, the
iteration increment, one line per scalar variable with its zero-padded index,
and a velocity vector line when all of vel_x/vel_y/vel_z are present. -/
def WriteRes (inp : inputRec) (iter : Nat) (openFailed : Bool) :
    Except outErr (List resLine) :=
  let outFreq := inp.outputFrequency
  if openFailed then Except.error outErr.ioError
  else
    let outputVars := inp.outputVariables
    let hasVelVector := outputVars.contains "vel_x" && outputVars.contains "vel_y" &&
      outputVars.contains "vel_z"
    let numScalar := outputVars.length
    let numVector := if hasVelVector then 1 else 0
    let numTime := iter / outFreq + 1
    let solTimes := (List.range numTime).map fun t => (t + 1) * outFreq
    let velIdx := fun name =>
      outputVars.enum.foldl (fun acc nv => if nv.2 = name then nv.1 else acc) 0
    Except.ok
      ([resLine.header3 numScalar numVector 0, resLine.nTimes numTime,
        resLine.times solTimes, resLine.incr outFreq outFreq] ++
        outputVars.enum.map (fun nv => resLine.scalarVar nv.1 nv.2) ++
        (if hasVelVector then
          [resLine.vectorVar (velIdx "vel_x") (velIdx "vel_y") (velIdx "vel_z")]
        else []))

/-- The first output-variable name that would hit the fatal unknown-name
branch of `WriteFun`, if any. -/
def firstUnknown (outVars : List String) : Option String :=
  outVars.find? fun v => ! recognizedVar v

/-- Modelled from the spec: `NUMVARS`, the number of equations of the full
7-equation state (genArray.hpp is not part of src/). -/
def NUMVARS : Nat := 7

/-- Modelled from the spec: a `genArray`, one rational per equation;
arithmetic on it is componentwise. -/
def genArray : Type := Fin NUMVARS → ℚ

instance : Inhabited genArray := ⟨fun _ => 0⟩

/-- The reference-residual update of `PrintResiduals` (output.cpp:747-757):
at the very first report the reference is overwritten with the current L2;
within the first five outer iterations, at each first nonlinear iteration,
it becomes the componentwise maximum with the current L2; afterwards it is
left unchanged. -/
def updateResidL2First (nn mm : Nat) (residL2First residL2 : genArray) : genArray :=
  if nn = 0 ∧ mm = 0 then residL2
  else if nn < 5 ∧ mm = 0 then
    fun cc => if residL2First cc < residL2 cc then residL2 cc else residL2First cc
  else residL2First

/-- The normalized residuals `(residL2 + EPS) / (residL2First + EPS)`
(output.cpp:760), componentwise as the `genArray` operators are. -/
def normResid (eps : ℚ) (residL2First residL2 : genArray) : genArray :=
  fun cc => (residL2 cc + eps) / (residL2First cc + eps)

/-- One `PrintResiduals` call (output.cpp:743-784), restricted to its
numerical content: it returns the updated reference residual and the
normalized L2 values it prints. -/
def printResStep (eps : ℚ) (nn mm : Nat) (residL2First residL2 : genArray) :
    genArray × genArray :=
  let first := updateResidL2First nn mm residL2First residL2
  (first, normResid eps first residL2)

/-- One residual report of a run: outer iteration `nn`, nonlinear iteration
`mm`, and the L2 residual passed to `PrintResiduals`. -/
structure residEntry where
  nn : Nat
  mm : Nat
  l2 : genArray

instance : Inhabited residEntry := ⟨⟨0, 0, fun _ => 0⟩⟩

/-- The normalized L2 residuals printed over a whole run, threading the
persistent `residL2First` reference through successive `PrintResiduals`
calls starting from its (arbitrary) initial value. -/
def residReports (eps : ℚ) : genArray → List residEntry → List genArray
  | _, [] => []
  | first, e :: rest =>
      let st := printResStep eps e.nn e.mm first e.l2
      st.2 :: residReports eps st.1 rest

/-- Componentwise maximum of two genArrays. -/
def gmax (a b : genArray) : genArray :=
  fun cc => max (a cc) (b cc)

/-- Componentwise maximum of a list of genArrays (zero for an empty list). -/
def combMax : List genArray → genArray
  | [] => fun _ => 0
  | g :: rest => rest.foldl gmax g

/-- The first-subiteration L2 residuals of the first five outer iterations
occurring in a run, in order. -/
def firstSubL2 (run : List residEntry) : List genArray :=
  (run.filter fun e => decide (e.mm = 0) && decide (e.nn < 5)).map residEntry.l2

/-- The reference residual the claim prescribes for report `t` of a run: the
componentwise maximum of the first-subiteration L2 residuals with outer
iteration below five seen so far. -/
def specRef (run : List residEntry) (t : Nat) : genArray :=
  combMax (firstSubL2 (run.take (t + 1)))

/-- A single 8-cell recombined block used for the split-locator
counterexample. -/
def c1CexVars : List procBlock := [trivialBlock 8 1 1]

/-- A valid split history that re-splits a lower child: block 0 is split at
i = 4 (children 0 and 1), then block 0 is split again at i = 2 (children 0
and 2).  Final extents: block 0 owns i ∈ [0,2), block 2 owns i ∈ [2,4),
block 1 owns i ∈ [4,8). -/
def c1CexSplits : List splitRec :=
  [⟨0, 1, 0, axis3.ax_i, 4⟩, ⟨0, 2, 0, axis3.ax_i, 2⟩]

/-- A single 8-cell recombined block used for the chain witness. -/
def c1ChainVars : List procBlock := [trivialBlock 8 1 1]

/-- A chain split history: block 0 is split at i = 4 (children 0 and 1), then
the upper child 1 is split at its local i = 2 (children 1 and 2). -/
def c1ChainSplits : List splitRec :=
  [⟨0, 1, 0, axis3.ax_i, 4⟩, ⟨1, 2, 0, axis3.ax_i, 2⟩]

/-- A single 4×2×2 block used for the recombination witness. -/
def c2Vars : List procBlock := [trivialBlock 4 2 2]

/-- One split of block 0 at j = 1 for the recombination witness. -/
def c2Splits : List splitRec := [⟨0, 1, 0, axis3.ax_j, 1⟩]

/-- A concrete external-collaborator context for witnesses. -/
def c5Ctx : flowCtx := ⟨fun p r => p + r, fun v => v.x + v.y + v.z, 1⟩

/-- A concrete input record for the layout witness. -/
def c5Inp : inputRec := ⟨["density", "dt"], 1, 1, 1, 1, 1⟩

/-- A concrete block list for the layout witness. -/
def c5Vars : List procBlock := [trivialBlock 2 1 1]

/-- A concrete external-collaborator context for the unknown-variable
witness. -/
def c8Ctx : flowCtx := ⟨fun p r => p + r, fun v => v.x, 1⟩

/-- An input record whose second output variable hits no dispatch branch. -/
def c8Inp : inputRec := ⟨["density", "bogus"], 1, 1, 1, 1, 1⟩

/-- A concrete block list for the unknown-variable witness. -/
def c8Vars : List procBlock := [trivialBlock 1 1 1]

/-- A context with reference speed of sound 4, for the dt-scaling check. -/
def c4Ctx : flowCtx := ⟨fun _ _ => 4, fun v => v.x, 1⟩

/-- An input record with `LRef = 2`, for the dt-scaling check. -/
def c4Inp : inputRec := ⟨["dt"], 1, 1, 1, 2, 1⟩

/-- A concrete residual-report run for the normalization witness: outer
iterations 0, 1 and 5, each at nonlinear iteration 0. -/
def c3Run : List residEntry :=
  [⟨0, 0, fun _ => 3⟩, ⟨1, 0, fun _ => 5⟩, ⟨5, 0, fun _ => 9⟩]

/-! ### List helper lemmas -/

theorem getD_set_self {α : Type _} (l : List α) (i : Nat) (a d : α)
    (h : i < l.length) : (l.set i a).getD i d = a := by
  have h' : i < (l.set i a).length := by simpa using h
  rw [List.getD_eq_getElem _ _ h', List.getElem_set_self]

theorem getD_set_ne {α : Type _} (l : List α) (i j : Nat) (a d : α)
    (hij : i ≠ j) : (l.set i a).getD j d = l.getD j d := by
  by_cases hj : j < l.length
  · have h' : j < (l.set i a).length := by simpa using hj
    rw [List.getD_eq_getElem _ _ h', List.getD_eq_getElem _ _ hj,
      List.getElem_set_ne hij]
  · rw [List.getD_eq_default _ _ (by simpa using Nat.le_of_not_lt hj),
      List.getD_eq_default _ _ (Nat.le_of_not_lt hj)]

theorem getD_concat_self {α : Type _} (l : List α) (a d : α) :
    (l ++ [a]).getD l.length d = a := by
  rw [List.getD_append_right _ _ _ _ (Nat.le_refl _)]
  simp

theorem getD_range (R p : Nat) (h : p < R) : (List.range R).getD p 0 = p := by
  rw [List.getD_eq_getElem _ _ (by simpa using h)]
  simp

theorem getD_replicate {α : Type _} (v d : α) (R p : Nat) (h : p < R) :
    (List.replicate R v).getD p d = v := by
  rw [List.getD_eq_getElem _ _ (by simpa using h)]
  simp

theorem getD_map_lt {α β : Type _} (f : α → β) (l : List α) (n : Nat)
    (d : β) (d' : α) (h : n < l.length) :
    (l.map f).getD n d = f (l.getD n d') := by
  rw [List.getD_eq_getElem _ _ (by simpa using h), List.getD_eq_getElem _ _ h]
  simp

theorem set_getD_self {α : Type _} (l : List α) (i : Nat) (d : α)
    (h : i < l.length) : l.set i (l.getD i d) = l := by
  apply List.ext_getElem (by simp)
  intro n h1 h2
  rw [List.getElem_set]
  split
  · next heq => subst heq; rw [List.getD_eq_getElem _ _ h]
  · rfl

/-! ### Claim C2: Recombine undoes the split history -/

theorem splitLower_join_splitUpper (b : procBlock) (dir : axis3) (d : Nat)
    (hd : d ≤ extentA b dir) :
    (b.splitLower dir d).join (b.splitUpper dir d) dir = b := by
  cases dir with
  | ax_i =>
    have hd' : d ≤ b.numI := hd
    simp only [procBlock.join, procBlock.splitLower, procBlock.splitUpper,
      procBlock.shiftI]
    apply procBlock.ext <;> try rfl
    all_goals
      first
      | (show d + (b.numI - d) = b.numI
         omega)
      | (funext i j k n
         by_cases hi : i < b.numGhosts + d
         · simp [hi]
         · simp [hi, Nat.sub_add_cancel (show d ≤ i from by omega)])
      | (funext i j k
         by_cases hi : i < b.numGhosts + d
         · simp [hi]
         · simp [hi, Nat.sub_add_cancel (show d ≤ i from by omega)])
  | ax_j =>
    have hd' : d ≤ b.numJ := hd
    simp only [procBlock.join, procBlock.splitLower, procBlock.splitUpper,
      procBlock.shiftJ]
    apply procBlock.ext <;> try rfl
    all_goals
      first
      | (show d + (b.numJ - d) = b.numJ
         omega)
      | (funext i j k n
         by_cases hj : j < b.numGhosts + d
         · simp [hj]
         · simp [hj, Nat.sub_add_cancel (show d ≤ j from by omega)])
      | (funext i j k
         by_cases hj : j < b.numGhosts + d
         · simp [hj]
         · simp [hj, Nat.sub_add_cancel (show d ≤ j from by omega)])
  | ax_k =>
    have hd' : d ≤ b.numK := hd
    simp only [procBlock.join, procBlock.splitLower, procBlock.splitUpper,
      procBlock.shiftK]
    apply procBlock.ext <;> try rfl
    all_goals
      first
      | (show d + (b.numK - d) = b.numK
         omega)
      | (funext i j k n
         by_cases hk : k < b.numGhosts + d
         · simp [hk]
         · simp [hk, Nat.sub_add_cancel (show d ≤ k from by omega)])
      | (funext i j k
         by_cases hk : k < b.numGhosts + d
         · simp [hk]
         · simp [hk, Nat.sub_add_cancel (show d ≤ k from by omega)])

theorem applySplitStep_length (blks : List procBlock) (s : splitRec) :
    (applySplitStep blks s).length = blks.length + 1 := by
  simp [applySplitStep]

theorem applyHistory_length (blks : List procBlock) (splits : List splitRec) :
    (applyHistory blks splits).length = blks.length + splits.length := by
  induction splits generalizing blks with
  | nil => rfl
  | cons s rest ih =>
    show (applyHistory (applySplitStep blks s) rest).length = _
    rw [ih, applySplitStep_length, List.length_cons]
    omega

theorem recombineStep_applySplitStep (blks : List procBlock) (s : splitRec)
    (h1 : s.lower < blks.length) (h2 : s.upper = blks.length)
    (h4 : s.ind ≤ extentA (blks.getD s.lower default) s.dir) :
    recombineStep (applySplitStep blks s) s = blks := by
  set L := blks.getD s.lower default with hL
  have hsetlen : (blks.set s.lower (L.splitLower s.dir s.ind)).length = blks.length := by
    simp
  have hlow : (applySplitStep blks s).getD s.lower default = L.splitLower s.dir s.ind := by
    unfold applySplitStep
    rw [← hL, List.getD_append _ _ _ _ (by rw [hsetlen]; exact h1),
      getD_set_self _ _ _ _ h1]
  have hup : (applySplitStep blks s).getD s.upper default = L.splitUpper s.dir s.ind := by
    unfold applySplitStep
    rw [← hL, h2, ← hsetlen, getD_concat_self]
  unfold recombineStep
  rw [hlow, hup, splitLower_join_splitUpper _ _ _ h4]
  unfold applySplitStep
  rw [← hL, List.set_append_left _ _ (by rw [hsetlen]; exact h1), List.set_set,
    set_getD_self _ _ _ h1, List.dropLast_concat]

theorem recombine_applyHistory : ∀ (splits : List splitRec) (blks : List procBlock),
    validHist blks splits = true →
    Recombine (applyHistory blks splits) ⟨splits⟩ = blks := by
  intro splits
  induction splits with
  | nil => intro blks _; rfl
  | cons s rest ih =>
    intro blks hv
    have hv' := hv
    rw [validHist] at hv'
    simp only [Bool.and_eq_true, decide_eq_true_eq] at hv'
    obtain ⟨⟨⟨⟨h1, h2⟩, h3⟩, h4⟩, hrest⟩ := hv'
    show (s :: rest).reverse.foldl recombineStep (applyHistory blks (s :: rest)) = blks
    rw [List.reverse_cons, List.foldl_append]
    have hy : applyHistory blks (s :: rest) = applyHistory (applySplitStep blks s) rest := rfl
    rw [hy]
    have hmid : rest.reverse.foldl recombineStep
        (applyHistory (applySplitStep blks s) rest) = applySplitStep blks s :=
      ih (applySplitStep blks s) hrest
    rw [hmid]
    show recombineStep (applySplitStep blks s) s = blks
    exact recombineStep_applySplitStep blks s h1 h2 (Nat.le_of_lt h4)

/-- Claim C2: `Recombine` replays the recorded split list in reverse
historical order, fusing each split's lower child with its upper child along
the recorded axis and shrinking the block vector by one per split, so that
for any block list and any valid split history it restores the original
pre-split block configuration, with (input blocks − number of splits)
blocks. -/
theorem recombine_inverts_split_history (blks : List procBlock)
    (splits : List splitRec) (h : validHist blks splits = true) :
    Recombine (applyHistory blks splits) ⟨splits⟩ = blks ∧
      (Recombine (applyHistory blks splits) ⟨splits⟩).length
        = (applyHistory blks splits).length - splits.length := by
  have h1 := recombine_applyHistory splits blks h
  refine ⟨h1, ?_⟩
  rw [h1, applyHistory_length]
  omega

/-- Witness for C2 at a concrete one-split history on a 4×2×2 block. -/
theorem recombine_inverts_split_history_witness :
    Recombine (applyHistory c2Vars c2Splits) ⟨c2Splits⟩ = c2Vars ∧
      (Recombine (applyHistory c2Vars c2Splits) ⟨c2Splits⟩).length
        = (applyHistory c2Vars c2Splits).length - c2Splits.length :=
  recombine_inverts_split_history c2Vars c2Splits (by decide)

/-! ### Claim C1: the split locator -/

/-- Claim C1 is false as stated: for the valid (but non-chain) split history
`c1CexSplits`, which re-splits a lower child, the interior cell `(3,0,0)` of
recombined block 0 is owned by split block 2 (extents `[2,4)` in i), yet
`SplitBlockNumber` returns block 0, whose final extents `[0,2)` do not
contain the cell. -/
theorem splitBlockNumber_counterexample :
    validDecomp c1CexVars c1CexSplits = true ∧
      0 < c1CexVars.length ∧
      3 < (c1CexVars.getD 0 default).numI ∧
      0 < (c1CexVars.getD 0 default).numJ ∧
      0 < (c1CexVars.getD 0 default).numK ∧
      SplitBlockNumber c1CexVars ⟨c1CexSplits⟩ 0 3 0 0 = 0 ∧
      ¬ inBox ((splitBoxes c1CexVars c1CexSplits).getD 0 default) 3 0 0 ∧
      inBox ((splitBoxes c1CexVars c1CexSplits).getD 2 default) 3 0 0 := by
  decide

theorem parentFold_getD (splits : List splitRec) : ∀ (pm : List Nat) (r : Nat),
    r < pm.length →
    (splits.foldl (fun acc s => acc ++ [s.parent]) pm).getD r 0 = pm.getD r 0 := by
  induction splits with
  | nil => intro pm r _; rfl
  | cons s rest ih =>
    intro pm r h
    show (rest.foldl _ (pm ++ [s.parent])).getD r 0 = _
    rw [ih (pm ++ [s.parent]) r (by simp; omega), List.getD_append _ _ _ _ h]

theorem boxes_untouched : ∀ (splits : List splitRec) (R n : Nat) (tops : List Nat)
    (los dims : List v3) (bxs : List extBox) (r : Nat),
    chainSplitsFrom R splits tops los dims n = true →
    tops.length = R → bxs.length = R + n → r < R + n →
    (∀ p, p < R → tops.getD p 0 ≠ r) →
    (splits.foldl applySplitBox bxs).getD r default = bxs.getD r default := by
  intro splits
  induction splits with
  | nil => intros; rfl
  | cons s rest ih =>
    intro R n tops los dims bxs r hchain htops hbxs hr htne
    rw [chainSplitsFrom] at hchain
    simp only [Bool.and_eq_true, decide_eq_true_eq] at hchain
    obtain ⟨⟨⟨⟨⟨hpar, hup⟩, hlow⟩, hpos⟩, hcut⟩, hrest⟩ := hchain
    have hlowne : s.lower ≠ r := by
      rw [hlow]; exact htne s.parent hpar
    have hstep : (applySplitBox bxs s).getD r default = bxs.getD r default := by
      unfold applySplitBox
      rw [List.getD_append _ _ _ _ (by rw [List.length_set, hbxs]; exact hr),
        getD_set_ne _ _ _ _ _ hlowne]
    have hlen' : (applySplitBox bxs s).length = R + (n + 1) := by
      unfold applySplitBox
      rw [List.length_append, List.length_set, hbxs]
      simp only [List.length_singleton]
      omega
    have htne' : ∀ p, p < R → (tops.set s.parent (R + n)).getD p 0 ≠ r := by
      intro p hp
      by_cases hps : p = s.parent
      · subst hps
        rw [getD_set_self _ _ _ _ (by rw [htops]; exact hp)]
        omega
      · rw [getD_set_ne _ _ _ _ _ (fun hh => hps hh.symm)]
        exact htne p hp
    calc (rest.foldl applySplitBox (applySplitBox bxs s)).getD r default
        = (applySplitBox bxs s).getD r default :=
          ih R (n + 1) _ _ dims _ r hrest (by rw [List.length_set, htops]) hlen'
            (by omega) htne'
      _ = bxs.getD r default := hstep

theorem sbn_chain_aux : ∀ (splits : List splitRec) (R n : Nat) (tops : List Nat)
    (los dims : List v3) (bd bxs : List extBox) (pm : List Nat)
    (blk ii jj kk : Nat),
    chainSplitsFrom R splits tops los dims n = true →
    tops.length = R → los.length = R →
    pm.length = R + n → bd.length = R + n → bxs.length = R + n →
    (∀ p, p < R → pm.getD (tops.getD p 0) 0 = p) →
    (∀ p, p < R → tops.getD p 0 < R + n) →
    (∀ p, p < R →
      bxs.getD (tops.getD p 0) default
        = (los.getD p default, dims.getD p default)) →
    blk < R →
    bd.getD (tops.getD blk 0) default
      = (los.getD blk default, dims.getD blk default) →
    (los.getD blk default).x ≤ ii → (los.getD blk default).y ≤ jj →
    (los.getD blk default).z ≤ kk →
    ii < (dims.getD blk default).x → jj < (dims.getD blk default).y →
    kk < (dims.getD blk default).z →
    inBox ((splits.foldl applySplitBox bxs).getD
        (sbnLoop blk ii jj kk splits bd (tops.getD blk 0)) default) ii jj kk ∧
      (splits.foldl (fun acc s => acc ++ [s.parent]) pm).getD
        (sbnLoop blk ii jj kk splits bd (tops.getD blk 0)) 0 = blk := by
  intro splits
  induction splits with
  | nil =>
    intro R n tops los dims bd bxs pm blk ii jj kk hchain htops hlos hpm hbd
      hbxs h6 h7 h8 hblk h11 hlox hloy hloz hdx hdy hdz
    constructor
    · show inBox (bxs.getD (tops.getD blk 0) default) ii jj kk
      rw [h8 blk hblk]
      exact ⟨hlox, hdx, hloy, hdy, hloz, hdz⟩
    · exact h6 blk hblk
  | cons s rest ih =>
    intro R n tops los dims bd bxs pm blk ii jj kk hchain htops hlos hpm hbd
      hbxs h6 h7 h8 hblk h11 hlox hloy hloz hdx hdy hdz
    obtain ⟨slo, sup, spar, sdir, sind⟩ := s
    rw [chainSplitsFrom] at hchain
    simp only [Bool.and_eq_true, decide_eq_true_eq] at hchain
    obtain ⟨⟨⟨⟨⟨hpar, hup⟩, hlow⟩, hpos⟩, hcut⟩, hrest⟩ := hchain
    have distinct : ∀ p q, p < R → q < R → p ≠ q →
        tops.getD p 0 ≠ tops.getD q 0 := by
      intro p q hp hq hpq heq
      exact hpq (by rw [← h6 p hp, heq, h6 q hq])
    have htopsT : (tops.set spar (R + n)).length = R := by
      rw [List.length_set, htops]
    have hlosL : (los.set spar ((los.getD spar default).bump sdir sind)).length = R := by
      rw [List.length_set, hlos]
    have h6' : ∀ p, p < R →
        (pm ++ [spar]).getD ((tops.set spar (R + n)).getD p 0) 0 = p := by
      intro p hp
      by_cases hps : p = spar
      · subst hps
        rw [getD_set_self _ _ _ _ (by rw [htops]; exact hp), ← hpm, getD_concat_self]
      · rw [getD_set_ne _ _ _ _ _ (fun hh => hps hh.symm),
          List.getD_append _ _ _ _ (by rw [hpm]; exact h7 p hp)]
        exact h6 p hp
    have h7' : ∀ p, p < R → (tops.set spar (R + n)).getD p 0 < R + (n + 1) := by
      intro p hp
      by_cases hps : p = spar
      · subst hps
        rw [getD_set_self _ _ _ _ (by rw [htops]; exact hp)]
        omega
      · rw [getD_set_ne _ _ _ _ _ (fun hh => hps hh.symm)]
        have := h7 p hp
        omega
    have hbox : bxs.getD slo default
        = (los.getD spar default, dims.getD spar default) := by
      rw [hlow]; exact h8 spar hpar
    have hbxslen' :
        (applySplitBox bxs ⟨slo, sup, spar, sdir, sind⟩).length = R + (n + 1) := by
      unfold applySplitBox
      rw [List.length_append, List.length_set, hbxs]
      simp only [List.length_singleton]
      omega
    have hsetlen : (bxs.set slo ((bxs.getD slo default).1,
        (bxs.getD slo default).2.withComp sdir
          ((bxs.getD slo default).1.comp sdir + sind))).length = R + n := by
      rw [List.length_set, hbxs]
    have h8' : ∀ p, p < R →
        (applySplitBox bxs ⟨slo, sup, spar, sdir, sind⟩).getD
            ((tops.set spar (R + n)).getD p 0) default
          = ((los.set spar ((los.getD spar default).bump sdir sind)).getD p default,
             dims.getD p default) := by
      intro p hp
      by_cases hps : p = spar
      · subst hps
        rw [getD_set_self _ _ _ _ (by rw [htops]; exact hp)]
        show ((bxs.set slo _) ++ [((bxs.getD slo default).1.withComp sdir
            ((bxs.getD slo default).1.comp sdir + sind), (bxs.getD slo default).2)]).getD
          (R + n) default = _
        rw [← hsetlen, getD_concat_self, hbox,
          getD_set_self _ _ _ _ (by rw [hlos]; exact hp)]
        rfl
      · rw [getD_set_ne _ _ _ _ _ (fun hh => hps hh.symm)]
        show ((bxs.set slo _) ++ [_]).getD (tops.getD p 0) default = _
        rw [List.getD_append _ _ _ _ (by rw [hsetlen]; exact h7 p hp),
          getD_set_ne _ _ _ _ _
            (by rw [hlow]; exact distinct spar p hpar hp (fun hh => hps hh.symm)),
          h8 p hp, getD_set_ne _ _ _ _ _ (fun hh => hps hh.symm)]
    simp only [sbnLoop]
    by_cases hbs : blk = spar
    case neg =>
      rw [if_pos hbs]
      have htblk : (tops.set spar (R + n)).getD blk 0 = tops.getD blk 0 :=
        getD_set_ne _ _ _ _ _ (fun hh => hbs hh.symm)
      have hLblk : (los.set spar ((los.getD spar default).bump sdir sind)).getD blk default
          = los.getD blk default :=
        getD_set_ne _ _ _ _ _ (fun hh => hbs hh.symm)
      have hbd' : (bd ++ [((⟨0, 0, 0⟩ : v3), (⟨0, 0, 0⟩ : v3))]).getD
          ((tops.set spar (R + n)).getD blk 0) default
          = ((los.set spar ((los.getD spar default).bump sdir sind)).getD blk default,
             dims.getD blk default) := by
        rw [htblk, List.getD_append _ _ _ _ (by rw [hbd]; exact h7 blk hblk), h11, hLblk]
      have := ih R (n + 1) (tops.set spar (R + n))
        (los.set spar ((los.getD spar default).bump sdir sind)) dims
        (bd ++ [((⟨0, 0, 0⟩ : v3), (⟨0, 0, 0⟩ : v3))])
        (applySplitBox bxs ⟨slo, sup, spar, sdir, sind⟩) (pm ++ [spar]) blk ii jj kk
        hrest htopsT hlosL
        (by rw [List.length_append, hpm]; simp only [List.length_singleton]; omega)
        (by rw [List.length_append, hbd]; simp only [List.length_singleton]; omega)
        hbxslen' h6' h7' h8' hblk hbd'
        (by rw [hLblk]; exact hlox) (by rw [hLblk]; exact hloy)
        (by rw [hLblk]; exact hloz) hdx hdy hdz
      rw [htblk] at this
      exact this
    case pos =>
      rw [if_neg (not_not_intro hbs)]
      subst hbs
      have hbase : bd.getD slo default
          = (los.getD blk default, dims.getD blk default) := by
        rw [hlow]; exact h11
      have hub : (bd ++ [((bd.getD slo default).1.bump sdir sind,
          (bd.getD slo default).2)]).getD sup default
          = ((bd.getD slo default).1.bump sdir sind, (bd.getD slo default).2) := by
        rw [hup, ← hbd, getD_concat_self]
      rw [hub, hbase]
      have hToprw : (tops.set blk (R + n)).getD blk 0 = R + n :=
        getD_set_self _ _ _ _ (by rw [htops]; exact hblk)
      have hLoprw : (los.set blk ((los.getD blk default).bump sdir sind)).getD blk default
          = (los.getD blk default).bump sdir sind :=
        getD_set_self _ _ _ _ (by rw [hlos]; exact hblk)
      by_cases hin : ii ≤ (dims.getD blk default).x ∧ jj ≤ (dims.getD blk default).y ∧
          kk ≤ (dims.getD blk default).z ∧
          ((los.getD blk default).bump sdir sind).x ≤ ii ∧
          ((los.getD blk default).bump sdir sind).y ≤ jj ∧
          ((los.getD blk default).bump sdir sind).z ≤ kk
      · rw [if_pos hin]
        obtain ⟨_, _, _, hbx, hby, hbz⟩ := hin
        have hbd'' : (bd ++ [((los.getD blk default).bump sdir sind,
            (dims.getD blk default))]).getD
            ((tops.set blk (R + n)).getD blk 0) default
            = ((los.set blk ((los.getD blk default).bump sdir sind)).getD blk default,
               dims.getD blk default) := by
          rw [hToprw, ← hbd, getD_concat_self, hLoprw]
        have := ih R (n + 1) (tops.set blk (R + n))
          (los.set blk ((los.getD blk default).bump sdir sind)) dims
          (bd ++ [((los.getD blk default).bump sdir sind, (dims.getD blk default))])
          (applySplitBox bxs ⟨slo, sup, blk, sdir, sind⟩) (pm ++ [blk]) blk ii jj kk
          hrest htopsT hlosL
          (by rw [List.length_append, hpm]; simp only [List.length_singleton]; omega)
          (by rw [List.length_append, hbd]; simp only [List.length_singleton]; omega)
          hbxslen' h6' h7' h8' hblk hbd''
          (by rw [hLoprw]; exact hbx) (by rw [hLoprw]; exact hby)
          (by rw [hLoprw]; exact hbz) hdx hdy hdz
        rw [hToprw, ← hup] at this
        exact this
      · rw [if_neg hin]
        have hslo_lt : slo < R + n := by rw [hlow]; exact h7 blk hblk
        have htneS : ∀ p, p < R → (tops.set blk (R + n)).getD p 0 ≠ slo := by
          intro p hp
          by_cases hps : p = blk
          · subst hps
            rw [hToprw]
            omega
          · rw [getD_set_ne _ _ _ _ _ (fun hh => hps hh.symm), hlow]
            exact distinct p blk hp hblk hps
        have huntouched := boxes_untouched rest R (n + 1) (tops.set blk (R + n))
          (los.set blk ((los.getD blk default).bump sdir sind)) dims
          (applySplitBox bxs ⟨slo, sup, blk, sdir, sind⟩) slo hrest htopsT
          hbxslen' (by omega) htneS
        have hstepbox : (applySplitBox bxs ⟨slo, sup, blk, sdir, sind⟩).getD slo default
            = ((los.getD blk default),
               (dims.getD blk default).withComp sdir
                 ((los.getD blk default).comp sdir + sind)) := by
          unfold applySplitBox
          rw [List.getD_append _ _ _ _ (by rw [hsetlen]; exact hslo_lt),
            getD_set_self _ _ _ _ (by rw [hbxs]; exact hslo_lt), hbox]
        constructor
        · show inBox ((rest.foldl applySplitBox
              (applySplitBox bxs ⟨slo, sup, blk, sdir, sind⟩)).getD slo default) ii jj kk
          rw [huntouched, hstepbox]
          cases sdir with
          | ax_i =>
            have hnb : ¬ ((los.getD blk default).x + sind ≤ ii) := by
              intro hcon
              exact hin ⟨by omega, by omega, by omega,
                by simp only [v3.bump, v3.withComp, v3.comp]; omega,
                by simp only [v3.bump, v3.withComp, v3.comp]; omega,
                by simp only [v3.bump, v3.withComp, v3.comp]; omega⟩
            refine ⟨hlox, ?_, hloy, ?_, hloz, ?_⟩ <;>
              simp only [v3.bump, v3.withComp, v3.comp] <;> omega
          | ax_j =>
            have hnb : ¬ ((los.getD blk default).y + sind ≤ jj) := by
              intro hcon
              exact hin ⟨by omega, by omega, by omega,
                by simp only [v3.bump, v3.withComp, v3.comp]; omega,
                by simp only [v3.bump, v3.withComp, v3.comp]; omega,
                by simp only [v3.bump, v3.withComp, v3.comp]; omega⟩
            refine ⟨hlox, ?_, hloy, ?_, hloz, ?_⟩ <;>
              simp only [v3.bump, v3.withComp, v3.comp] <;> omega
          | ax_k =>
            have hnb : ¬ ((los.getD blk default).z + sind ≤ kk) := by
              intro hcon
              exact hin ⟨by omega, by omega, by omega,
                by simp only [v3.bump, v3.withComp, v3.comp]; omega,
                by simp only [v3.bump, v3.withComp, v3.comp]; omega,
                by simp only [v3.bump, v3.withComp, v3.comp]; omega⟩
            refine ⟨hlox, ?_, hloy, ?_, hloz, ?_⟩ <;>
              simp only [v3.bump, v3.withComp, v3.comp] <;> omega
        · show (rest.foldl (fun acc s => acc ++ [s.parent]) (pm ++ [blk])).getD slo 0 = blk
          rw [parentFold_getD rest (pm ++ [blk]) slo
              (by rw [List.length_append, hpm]; simp only [List.length_singleton]; omega),
            List.getD_append _ _ _ _ (by rw [hpm]; exact hslo_lt), hlow]
          exact h6 blk hblk

/-- Claim C1 (amended): for chain split histories — histories in which every
split of an original block's lineage cuts the block that was the upper child
of the lineage's previous split — `SplitBlockNumber` does return a split
block owning the queried interior cell: the returned block descends from the
queried recombined block and its final extent box contains the cell.  (The
unrestricted claim is refuted by `splitBlockNumber_counterexample`, which
re-splits a lower child.) -/
theorem splitBlockNumber_chain_correct (rv : List procBlock)
    (splits : List splitRec) (blk ii jj kk : Nat)
    (hchain : chainDecomp rv splits = true)
    (hblk : blk < rv.length)
    (hii : ii < (rv.getD blk default).numI)
    (hjj : jj < (rv.getD blk default).numJ)
    (hkk : kk < (rv.getD blk default).numK) :
    inBox ((splitBoxes rv splits).getD
        (SplitBlockNumber rv ⟨splits⟩ blk ii jj kk) default) ii jj kk ∧
      (parentMap rv.length splits).getD
        (SplitBlockNumber rv ⟨splits⟩ blk ii jj kk) 0 = blk := by
  rw [chainDecomp] at hchain
  have hmain := sbn_chain_aux splits rv.length 0 (List.range rv.length)
    (List.replicate rv.length ⟨0, 0, 0⟩)
    (rv.map fun b => (⟨b.numI, b.numJ, b.numK⟩ : v3))
    (initBoxes rv) (initBoxes rv) (List.range rv.length) blk ii jj kk
    hchain
    (List.length_range _) (List.length_replicate _ _)
    (by rw [List.length_range]; omega)
    (by unfold initBoxes; rw [List.length_map]; omega)
    (by unfold initBoxes; rw [List.length_map]; omega)
    (by
      intro p hp
      rw [getD_range _ _ hp, getD_range _ _ hp])
    (by
      intro p hp
      rw [getD_range _ _ hp]
      omega)
    (by
      intro p hp
      rw [getD_range _ _ hp]
      unfold initBoxes
      rw [getD_map_lt _ _ _ _ default (by exact hp),
        getD_replicate _ _ _ _ hp,
        getD_map_lt _ _ _ _ default (by exact hp)])
    hblk
    (by
      rw [getD_range _ _ hblk]
      unfold initBoxes
      rw [getD_map_lt _ _ _ _ default (by exact hblk),
        getD_replicate _ _ _ _ hblk,
        getD_map_lt _ _ _ _ default (by exact hblk)])
    (by rw [getD_replicate _ _ _ _ hblk]; exact Nat.zero_le _)
    (by rw [getD_replicate _ _ _ _ hblk]; exact Nat.zero_le _)
    (by rw [getD_replicate _ _ _ _ hblk]; exact Nat.zero_le _)
    (by rw [getD_map_lt _ _ _ _ default (by exact hblk)]; exact hii)
    (by rw [getD_map_lt _ _ _ _ default (by exact hblk)]; exact hjj)
    (by rw [getD_map_lt _ _ _ _ default (by exact hblk)]; exact hkk)
  rw [getD_range _ _ hblk] at hmain
  exact hmain

/-- Witness for the amended C1 at the concrete chain history
`c1ChainSplits`: the cell `(5,0,0)` of recombined block 0 is located in
split block 1, whose extents `[4,6)` in i contain it. -/
theorem splitBlockNumber_chain_correct_witness :
    inBox ((splitBoxes c1ChainVars c1ChainSplits).getD
        (SplitBlockNumber c1ChainVars ⟨c1ChainSplits⟩ 0 5 0 0) default) 5 0 0 ∧
      (parentMap c1ChainVars.length c1ChainSplits).getD
        (SplitBlockNumber c1ChainVars ⟨c1ChainSplits⟩ 0 5 0 0) 0 = 0 :=
  splitBlockNumber_chain_correct c1ChainVars c1ChainSplits 0 5 0 0
    (by decide) (by decide) (by decide) (by decide) (by decide)

/-! ### Claims C5, C7, C8, C9, C10, C4: the output writers -/

theorem flatMap_congr {α β : Type _} (l : List α) (f g : α → List β)
    (h : ∀ a ∈ l, f a = g a) : l.flatMap f = l.flatMap g := by
  induction l with
  | nil => rfl
  | cons a rest ih =>
    rw [List.flatMap_cons, List.flatMap_cons, h a (by simp),
      ih fun b hb => h b (by simp [hb])]

theorem range_mul_map {α : Type _} (a b : Nat) (f : Nat → α) :
    (List.range (a * b)).map f
      = (List.range a).flatMap fun i => (List.range b).map fun j => f (i * b + j) := by
  induction a generalizing f with
  | zero => simp
  | succ a ih =>
    rw [Nat.succ_mul, List.range_add, List.map_append, List.map_map, ih,
      List.range_succ, List.flatMap_append]
    simp only [List.flatMap_cons, List.flatMap_nil, List.append_nil, List.map_map]
    rfl

theorem cellList_eq_decode (ni nj nk : Nat) :
    cellList ni nj nk
      = (List.range (ni * nj * nk)).map fun n =>
          (n % ni, n / ni % nj, n / (ni * nj)) := by
  have h1 : ni * nj * nk = nk * (nj * ni) := by ring
  rw [h1, range_mul_map]
  unfold cellList
  apply flatMap_congr
  intro kk hkk
  rw [range_mul_map]
  apply flatMap_congr
  intro jj hjj
  apply List.map_congr_left
  intro ii hii
  have hjjn : jj < nj := List.mem_range.mp hjj
  have hiin : ii < ni := List.mem_range.mp hii
  have hni : 0 < ni := Nat.lt_of_le_of_lt (Nat.zero_le _) hiin
  have hnj : 0 < nj := Nat.lt_of_le_of_lt (Nat.zero_le _) hjjn
  show (ii, jj, kk)
      = ((kk * (nj * ni) + (jj * ni + ii)) % ni,
         (kk * (nj * ni) + (jj * ni + ii)) / ni % nj,
         (kk * (nj * ni) + (jj * ni + ii)) / (ni * nj))
  have hrw : kk * (nj * ni) + (jj * ni + ii) = ii + (kk * nj + jj) * ni := by
    ring
  have e1 : (kk * (nj * ni) + (jj * ni + ii)) % ni = ii := by
    rw [hrw, Nat.add_mul_mod_self_right, Nat.mod_eq_of_lt hiin]
  have ediv : (kk * (nj * ni) + (jj * ni + ii)) / ni = kk * nj + jj := by
    rw [hrw, Nat.add_mul_div_right _ _ hni, Nat.div_eq_of_lt hiin, Nat.zero_add]
  have e2 : (kk * (nj * ni) + (jj * ni + ii)) / ni % nj = jj := by
    rw [ediv, show kk * nj + jj = jj + kk * nj from by ring,
      Nat.add_mul_mod_self_right, Nat.mod_eq_of_lt hjjn]
  have hlt : jj * ni + ii < ni * nj := by
    calc jj * ni + ii < jj * ni + ni := by omega
    _ = (jj + 1) * ni := by ring
    _ ≤ nj * ni := Nat.mul_le_mul_right _ hjjn
    _ = ni * nj := by ring
  have e3 : (kk * (nj * ni) + (jj * ni + ii)) / (ni * nj) = kk := by
    rw [show kk * (nj * ni) + (jj * ni + ii) = (jj * ni + ii) + kk * (ni * nj) from by ring,
      Nat.add_mul_div_right _ _ (Nat.mul_pos hni hnj), Nat.div_eq_of_lt hlt,
      Nat.zero_add]
  rw [e1, e2, e3]

theorem collectTokens_map_ok {α : Type _} (xs : List α)
    (F : α → Except outErr (List token)) (G : α → List token)
    (h : ∀ x ∈ xs, F x = Except.ok (G x)) :
    collectTokens (xs.map F) = Except.ok (xs.flatMap G) := by
  induction xs with
  | nil => rfl
  | cons x rest ih =>
    rw [List.map_cons, List.flatMap_cons, h x (by simp), collectTokens,
      ih fun b hb => h b (by simp [hb])]

theorem collectTokens_append_ok (l1 l2 : List (Except outErr (List token)))
    (t1 t2 : List token) (h1 : collectTokens l1 = Except.ok t1)
    (h2 : collectTokens l2 = Except.ok t2) :
    collectTokens (l1 ++ l2) = Except.ok (t1 ++ t2) := by
  induction l1 generalizing t1 with
  | nil =>
    rw [collectTokens] at h1
    cases h1
    simpa using h2
  | cons e rest ih =>
    cases e with
    | error err => rw [collectTokens] at h1; cases h1
    | ok ts =>
      rw [collectTokens] at h1
      cases hrest : collectTokens rest with
      | error err => simp only [hrest] at h1; cases h1
      | ok more =>
        simp only [hrest] at h1
        cases h1
        rw [List.cons_append, collectTokens, ih more hrest, List.append_assoc]

theorem collectTokens_append_error (l1 l2 : List (Except outErr (List token)))
    (err : outErr) (h1 : collectTokens l1 = Except.error err) :
    collectTokens (l1 ++ l2) = Except.error err := by
  induction l1 with
  | nil => rw [collectTokens] at h1; cases h1
  | cons e rest ih =>
    cases e with
    | error e' =>
      rw [collectTokens] at h1
      cases h1
      rw [List.cons_append, collectTokens]
    | ok ts =>
      rw [collectTokens] at h1
      cases hrest : collectTokens rest with
      | error e' =>
        simp only [hrest] at h1
        cases h1
        rw [List.cons_append, collectTokens, ih hrest]
      | ok more => simp only [hrest] at h1; cases h1

theorem collect_nested_ok {α β : Type _} (xs : List α) (ys : List β)
    (F : α → β → Except outErr (List token)) (G : α → β → List token)
    (h : ∀ a ∈ xs, ∀ b ∈ ys, F a b = Except.ok (G a b)) :
    collectTokens (xs.flatMap fun a => ys.map (F a))
      = Except.ok (xs.flatMap fun a => ys.flatMap (G a)) := by
  induction xs with
  | nil => rfl
  | cons a rest ih =>
    rw [List.flatMap_cons, List.flatMap_cons]
    exact collectTokens_append_ok _ _ _ _
      (collectTokens_map_ok ys (F a) (G a) fun b hb => h a (by simp) b hb)
      (ih fun a' ha' b hb => h a' (by simp [ha']) b hb)

/-- Claim C5: with the output file open and every requested variable
recognized, `WriteFun` produces exactly the layout of §6: first the block
count as an int32, then per block the four int32 values Ni, Nj, Nk, numVars
(interior cell counts, no ghosts), then for every block and every output
variable in order, Ni·Nj·Nk float64 cell values with i varying fastest and k
slowest (the n-th value is cell `(n % Ni, n / Ni % Nj, n / (Ni·Nj))`). -/
theorem writeFun_layout (ctx : flowCtx) (inp : inputRec) (vars : List procBlock)
    (decomp : decomposition)
    (hrec : ∀ v ∈ inp.outputVariables, recognizedVar v = true) :
    WriteFun ctx inp vars decomp false =
      Except.ok (funFileLayout (Recombine vars decomp) inp.outputVariables
        (fun ll var i j k =>
          dimensionalize ctx inp var
            (fillValue ctx vars (Recombine vars decomp) decomp ll var i j k))) := by
  unfold WriteFun
  rw [if_neg Bool.false_ne_true]
  have hdata := collect_nested_ok (List.range (Recombine vars decomp).length)
    inp.outputVariables
    (fun ll var => blockVarTokens ctx inp vars (Recombine vars decomp) decomp ll var)
    (fun ll var =>
      (cellList ((Recombine vars decomp).getD ll default).numI
        ((Recombine vars decomp).getD ll default).numJ
        ((Recombine vars decomp).getD ll default).numK).map fun c =>
          token.f64 (dimensionalize ctx inp var
            (fillValue ctx vars (Recombine vars decomp) decomp ll var c.1 c.2.1 c.2.2)))
    (by
      intro a _ b hb
      simp only [blockVarTokens]
      rw [if_pos (hrec b hb)])
  rw [hdata]
  show Except.ok _ = _
  congr 1
  simp only [funFileLayout]
  congr 1
  apply flatMap_congr
  intro ll _
  apply flatMap_congr
  intro var _
  rw [cellList_eq_decode, List.map_map]
  rfl

/-- Witness for C5 at a concrete two-variable single-block configuration. -/
theorem writeFun_layout_witness :
    WriteFun c5Ctx c5Inp c5Vars ⟨[]⟩ false =
      Except.ok (funFileLayout (Recombine c5Vars ⟨[]⟩) c5Inp.outputVariables
        (fun ll var i j k =>
          dimensionalize c5Ctx c5Inp var
            (fillValue c5Ctx c5Vars (Recombine c5Vars ⟨[]⟩) ⟨[]⟩ ll var i j k))) :=
  writeFun_layout c5Ctx c5Inp c5Vars ⟨[]⟩ (by decide)

/-- Claim C7: each of the three output writers checks that its file opened
before writing anything; on an open failure it takes the fatal `IOError`
path (the C++ prints an error and calls `exit(EXIT_FAILURE)`, a non-zero
exit), and no tokens are emitted for that file. -/
theorem writers_fatal_on_open_failure (ctx : flowCtx) (inp : inputRec)
    (vars : List procBlock) (decomp : decomposition) (lRef : ℚ) (iter : Nat) :
    WriteCellCenter vars decomp lRef true = Except.error outErr.ioError ∧
      WriteFun ctx inp vars decomp true = Except.error outErr.ioError ∧
      WriteRes inp iter true = Except.error outErr.ioError :=
  ⟨rfl, rfl, rfl⟩

theorem collectTokens_unknown (ctx : flowCtx) (inp : inputRec)
    (vars recombVars : List procBlock) (decomp : decomposition) (ll : Nat) :
    ∀ (vs : List String) (w : String), firstUnknown vs = some w →
    collectTokens (vs.map fun var =>
        blockVarTokens ctx inp vars recombVars decomp ll var)
      = Except.error (outErr.unknownVariable w) := by
  intro vs
  induction vs with
  | nil => intro w hw; cases hw
  | cons v rest ih =>
    intro w hw
    rw [List.map_cons]
    by_cases hv : recognizedVar v = true
    · have hw' : firstUnknown rest = some w := by
        unfold firstUnknown at hw ⊢
        rwa [List.find?_cons_of_neg _ (by simp [hv])] at hw
      have hvtok : blockVarTokens ctx inp vars recombVars decomp ll v
          = Except.ok ((cellList (recombVars.getD ll default).numI
            (recombVars.getD ll default).numJ
            (recombVars.getD ll default).numK).map fun c =>
              token.f64 (dimensionalize ctx inp v
                (fillValue ctx vars recombVars decomp ll v c.1 c.2.1 c.2.2))) := by
        simp only [blockVarTokens]
        rw [if_pos hv]
      rw [hvtok, collectTokens, ih w hw']
    · have hweq : v = w := by
        unfold firstUnknown at hw
        rw [List.find?_cons_of_pos _ (by simp [hv])] at hw
        exact Option.some.inj hw
      have hvtok : blockVarTokens ctx inp vars recombVars decomp ll v
          = Except.error (outErr.unknownVariable v) := by
        simp only [blockVarTokens]
        rw [if_neg hv]
      rw [hvtok, hweq, collectTokens]

/-- Claim C8: when the recombined block list is nonempty and some requested
output variable hits no dispatch branch, `WriteFun` is fatal at the first
such name: it reports the unknown variable and takes the non-zero-exit error
path instead of silently skipping it. -/
theorem writeFun_unknown_fatal (ctx : flowCtx) (inp : inputRec)
    (vars : List procBlock) (decomp : decomposition) (w : String)
    (hne : Recombine vars decomp ≠ [])
    (hw : firstUnknown inp.outputVariables = some w) :
    WriteFun ctx inp vars decomp false
      = Except.error (outErr.unknownVariable w) := by
  unfold WriteFun
  rw [if_neg Bool.false_ne_true]
  obtain ⟨b, L, hbl⟩ := List.exists_cons_of_ne_nil hne
  have hlen : (Recombine vars decomp).length = L.length + 1 := by
    rw [hbl]; rfl
  rw [hlen, List.range_succ_eq_map, List.flatMap_cons]
  rw [collectTokens_append_error _ _ _
    (collectTokens_unknown ctx inp vars (Recombine vars decomp) decomp 0
      inp.outputVariables w hw)]

/-- Witness for C8: a one-block grid with output variables
`["density", "bogus"]` makes `WriteFun` fail on `"bogus"`. -/
theorem writeFun_unknown_fatal_witness :
    WriteFun c8Ctx c8Inp c8Vars ⟨[]⟩ false
      = Except.error (outErr.unknownVariable "bogus") :=
  writeFun_unknown_fatal c8Ctx c8Inp c8Vars ⟨[]⟩ "bogus"
    (by
      intro h
      have hlen := congrArg List.length h
      simp [Recombine, c8Vars] at hlen)
    (by decide)

/-- Claim C9: `WriteFun` accepts the variable name `mach` (absent from the
spec's recognized list): the stored value at an interior cell is the velocity
magnitude divided by the local speed of sound at the ghost-offset cell, and
the dimensionalization pass applies no scale factor to it. -/
theorem mach_recognized_and_unscaled (ctx : flowCtx) (inp : inputRec)
    (vars recombVars : List procBlock) (decomp : decomposition)
    (ll ii jj kk : Nat) (x : ℚ) :
    recognizedVar "mach" = true ∧
      fillValue ctx vars recombVars decomp ll "mach" ii jj kk =
        ctx.mag
            ⟨((recombVars.getD ll default).state
                (ii + (recombVars.getD ll default).numGhosts)
                (jj + (recombVars.getD ll default).numGhosts)
                (kk + (recombVars.getD ll default).numGhosts)).u,
              ((recombVars.getD ll default).state
                (ii + (recombVars.getD ll default).numGhosts)
                (jj + (recombVars.getD ll default).numGhosts)
                (kk + (recombVars.getD ll default).numGhosts)).v,
              ((recombVars.getD ll default).state
                (ii + (recombVars.getD ll default).numGhosts)
                (jj + (recombVars.getD ll default).numGhosts)
                (kk + (recombVars.getD ll default).numGhosts)).w⟩ /
          ctx.sos
            ((recombVars.getD ll default).state
                (ii + (recombVars.getD ll default).numGhosts)
                (jj + (recombVars.getD ll default).numGhosts)
                (kk + (recombVars.getD ll default).numGhosts)).p
            ((recombVars.getD ll default).state
                (ii + (recombVars.getD ll default).numGhosts)
                (jj + (recombVars.getD ll default).numGhosts)
                (kk + (recombVars.getD ll default).numGhosts)).rho ∧
      dimensionalize ctx inp "mach" x = x :=
  ⟨rfl, rfl, rfl⟩

/-- Claim C10: the written `viscosityRatio` value of an interior cell is
exactly 0 for a non-turbulent block, and the eddy viscosity divided by the
laminar viscosity at the ghost-offset cell for a turbulent block; the
dimensionalization pass leaves it unscaled either way. -/
theorem viscosity_ratio_value (ctx : flowCtx) (inp : inputRec)
    (vars recombVars : List procBlock) (decomp : decomposition)
    (ll ii jj kk : Nat) :
    recognizedVar "viscosityRatio" = true ∧
      dimensionalize ctx inp "viscosityRatio"
          (fillValue ctx vars recombVars decomp ll "viscosityRatio" ii jj kk) =
        (if (recombVars.getD ll default).isTurbulent then
          (recombVars.getD ll default).eddyViscosity
              (ii + (recombVars.getD ll default).numGhosts)
              (jj + (recombVars.getD ll default).numGhosts)
              (kk + (recombVars.getD ll default).numGhosts) /
            (recombVars.getD ll default).viscosity
              (ii + (recombVars.getD ll default).numGhosts)
              (jj + (recombVars.getD ll default).numGhosts)
              (kk + (recombVars.getD ll default).numGhosts)
        else 0) :=
  ⟨rfl, rfl⟩

/-- Claim C4 is contradicted by the code: the `dt` branch of the
dimensionalization pass divides by `refSoS * LRef` instead of multiplying by
`LRef / refSoS`.  At `dt = 1`, `LRef = 2`, `refSoS = 4` the code writes 1/8
while the spec's scale factor `L/a_ref` gives 1/2. -/
theorem dt_scaling_divides_instead_of_multiplying :
    dimensionalize c4Ctx c4Inp "dt" 1 = 1 / 8 ∧
      (1 : ℚ) * (c4Inp.lref / c4Ctx.sos c4Inp.pref c4Inp.rref) = 1 / 2 ∧
      dimensionalize c4Ctx c4Inp "dt" 1 ≠
        (1 : ℚ) * (c4Inp.lref / c4Ctx.sos c4Inp.pref c4Inp.rref) := by
  refine ⟨?_, ?_, ?_⟩ <;> norm_num +decide [dimensionalize, c4Ctx, c4Inp]

/-! ### Claims C3 and C6: residual reporting -/

theorem combMax_append_singleton (l : List genArray) (h : l ≠ [])
    (g : genArray) : combMax (l ++ [g]) = gmax (combMax l) g := by
  obtain ⟨a, t, rfl⟩ := List.exists_cons_of_ne_nil h
  show (t ++ [g]).foldl gmax a = gmax (t.foldl gmax a) g
  rw [List.foldl_append]
  rfl

theorem firstSubL2_append (l1 l2 : List residEntry) :
    firstSubL2 (l1 ++ l2) = firstSubL2 l1 ++ firstSubL2 l2 := by
  unfold firstSubL2
  rw [List.filter_append, List.map_append]

theorem firstSubL2_cons_pos (e : residEntry) (l : List residEntry)
    (h : e.mm = 0 ∧ e.nn < 5) :
    firstSubL2 (e :: l) = e.l2 :: firstSubL2 l := by
  unfold firstSubL2
  rw [List.filter_cons_of_pos (by simp only [Bool.and_eq_true, decide_eq_true_eq]; exact h),
    List.map_cons]

theorem firstSubL2_cons_neg (e : residEntry) (l : List residEntry)
    (h : ¬(e.mm = 0 ∧ e.nn < 5)) :
    firstSubL2 (e :: l) = firstSubL2 l := by
  unfold firstSubL2
  rw [List.filter_cons_of_neg (by simp only [Bool.and_eq_true, decide_eq_true_eq]; exact h)]

theorem updateResidL2First_spec (pre : List residEntry) (acc : genArray)
    (e : residEntry) (hno : ¬(e.nn = 0 ∧ e.mm = 0))
    (hacc : acc = combMax (firstSubL2 pre)) (hne : firstSubL2 pre ≠ []) :
    updateResidL2First e.nn e.mm acc e.l2
      = combMax (firstSubL2 (pre ++ [e])) := by
  rw [firstSubL2_append]
  by_cases hcase : e.mm = 0 ∧ e.nn < 5
  · rw [firstSubL2_cons_pos e [] hcase]
    show updateResidL2First e.nn e.mm acc e.l2 = combMax (firstSubL2 pre ++ [e.l2])
    rw [combMax_append_singleton _ hne, ← hacc]
    unfold updateResidL2First
    rw [if_neg hno, if_pos ⟨hcase.2, hcase.1⟩]
    funext cc
    show (if acc cc < e.l2 cc then e.l2 cc else acc cc) = max (acc cc) (e.l2 cc)
    by_cases hlt : acc cc < e.l2 cc
    · rw [if_pos hlt, max_eq_right (le_of_lt hlt)]
    · rw [if_neg hlt, max_eq_left (le_of_not_lt hlt)]
  · rw [firstSubL2_cons_neg e [] hcase]
    show updateResidL2First e.nn e.mm acc e.l2 = combMax (firstSubL2 pre ++ [])
    rw [List.append_nil, ← hacc]
    unfold updateResidL2First
    rw [if_neg hno, if_neg (fun hc => hcase ⟨hc.2, hc.1⟩)]

theorem residReports_aux : ∀ (rest : List residEntry) (pre : List residEntry)
    (acc : genArray) (eps : ℚ),
    (∀ e ∈ rest, ¬(e.nn = 0 ∧ e.mm = 0)) →
    acc = combMax (firstSubL2 pre) →
    firstSubL2 pre ≠ [] →
    ∀ t, t < rest.length →
    (residReports eps acc rest).getD t default
      = normResid eps (combMax (firstSubL2 (pre ++ rest.take (t + 1))))
          ((rest.getD t default).l2) := by
  intro rest
  induction rest with
  | nil =>
    intro pre acc eps _ _ _ t ht
    simp at ht
  | cons e rest' ih =>
    intro pre acc eps hno hacc hne t ht
    have hstep : updateResidL2First e.nn e.mm acc e.l2
        = combMax (firstSubL2 (pre ++ [e])) :=
      updateResidL2First_spec pre acc e (hno e (by simp)) hacc hne
    cases t with
    | zero =>
      show (residReports eps acc (e :: rest')).getD 0 default = _
      simp only [residReports, printResStep, List.getD_cons_zero]
      rw [hstep, List.take_succ_cons, List.take_zero]
    | succ t' =>
      have hne' : firstSubL2 (pre ++ [e]) ≠ [] := by
        rw [firstSubL2_append]
        intro hc
        exact hne (List.append_eq_nil.mp hc).1
      have hrec := ih (pre ++ [e]) (updateResidL2First e.nn e.mm acc e.l2) eps
        (fun e' he' => hno e' (by simp [he'])) hstep hne' t' (by
          rw [List.length_cons] at ht
          omega)
      show (residReports eps acc (e :: rest')).getD (t' + 1) default = _
      simp only [residReports, printResStep, List.getD_cons_succ]
      rw [hrec, List.take_succ_cons]
      have hassoc : pre ++ e :: rest'.take (t' + 1)
          = (pre ++ [e]) ++ rest'.take (t' + 1) := by
        rw [List.append_assoc]
        rfl
      rw [hassoc]

/-- Claim C3: over a run whose first report is outer iteration 0, nonlinear
iteration 0 (and which never revisits it), every reported residual equals
`(L2 + eps) / (L2_ref + eps)` componentwise, where `L2_ref` at report `t` is
the componentwise maximum of the first-subiteration (`mm = 0`) L2 residuals
of outer iterations `nn < 5` seen so far — so it grows only during the first
five outer iterations and is never changed from `nn = 5` on. -/
theorem residReports_normalized (eps : ℚ) (first0 : genArray)
    (e0 : residEntry) (rest : List residEntry)
    (h0n : e0.nn = 0) (h0m : e0.mm = 0)
    (hno : ∀ e ∈ rest, ¬(e.nn = 0 ∧ e.mm = 0)) :
    ∀ t, t < (e0 :: rest).length →
    (residReports eps first0 (e0 :: rest)).getD t default
      = normResid eps (specRef (e0 :: rest) t)
          (((e0 :: rest).getD t default).l2) := by
  intro t ht
  have hhead : updateResidL2First e0.nn e0.mm first0 e0.l2 = e0.l2 := by
    unfold updateResidL2First
    rw [if_pos ⟨h0n, h0m⟩]
  have hfirst : firstSubL2 [e0] = [e0.l2] :=
    firstSubL2_cons_pos e0 [] ⟨h0m, by omega⟩
  cases t with
  | zero =>
    simp only [residReports, printResStep, List.getD_cons_zero]
    rw [hhead]
    unfold specRef
    rw [List.take_succ_cons, List.take_zero, hfirst]
    rfl
  | succ t' =>
    have hrec := residReports_aux rest [e0] e0.l2 eps hno
      (by rw [hfirst]; rfl) (by rw [hfirst]; exact List.cons_ne_nil _ _) t'
      (by rw [List.length_cons] at ht; omega)
    simp only [residReports, printResStep, List.getD_cons_succ]
    rw [hhead, hrec]
    unfold specRef
    rw [List.take_succ_cons]
    rfl

/-- Witness for C3 on the concrete run `c3Run` at its third report. -/
theorem residReports_normalized_witness :
    (residReports 1 (fun _ => 2) c3Run).getD 2 default
      = normResid 1 (specRef c3Run 2) ((c3Run.getD 2 default).l2) :=
  residReports_normalized 1 (fun _ => 2) ⟨0, 0, fun _ => 3⟩
    [⟨1, 0, fun _ => 5⟩, ⟨5, 0, fun _ => 9⟩] rfl rfl
    (by
      intro e he
      simp only [List.mem_cons, List.mem_singleton] at he
      rcases he with rfl | rfl | h
      · simp
      · simp
      · cases h)
    2 (by simp)

/-- Claim C6: at the very first residual report (outer iteration 0,
nonlinear iteration 0) the reference residual is set to the current L2, so
every reported normalized L2 value is (exactly 1 and hence) at most 1. -/
theorem first_report_le_one (eps : ℚ) (first0 residL2 : genArray)
    (hl2 : ∀ cc, 0 ≤ residL2 cc) (heps : 0 < eps) :
    (printResStep eps 0 0 first0 residL2).1 = residL2 ∧
      ∀ cc, (printResStep eps 0 0 first0 residL2).2 cc ≤ 1 := by
  have hupd : updateResidL2First 0 0 first0 residL2 = residL2 := by
    unfold updateResidL2First
    rw [if_pos ⟨rfl, rfl⟩]
  constructor
  · simp only [printResStep]
    exact hupd
  · intro cc
    simp only [printResStep, normResid]
    rw [hupd]
    have hpos : 0 < residL2 cc + eps := by
      have := hl2 cc
      linarith
    rw [div_self (ne_of_gt hpos)]

/-- Witness for C6 at a concrete first report. -/
theorem first_report_le_one_witness :
    (printResStep 1 0 0 (fun _ => 7) (fun _ => 0)).1 = (fun _ => 0) ∧
      ∀ cc, (printResStep 1 0 0 (fun _ => 7) (fun _ => 0)).2 cc ≤ 1 :=
  first_report_le_one 1 (fun _ => 7) (fun _ => 0)
    (fun _ => le_refl 0) (by norm_num)

end Aither
